import Mathlib

/-!
Shallow embedding of the coraza-waf rule-evaluation engine
(src/pkg/engine/rule.go), the concurrent audit logger
(ConcurrentLogger.WriteAudit) and the Md5 transformation, together with
proofs settling the frozen claims C1..C10 about the natural-language
specification.

The Transaction helper methods called by Rule.Evaluate (GetField,
GetRemovedTargets, MatchVars, MatchRule, SetCapturable, MacroExpansion)
are not part of the provided sources; they are modelled from the spec as
an abstract environment over an opaque collection-store type S, while the
control flow of Rule.Evaluate itself is translated line by line from
rule.go.
-/

set_option maxHeartbeats 1000000

/-- Action type constants from rule.go. -/
def ACTION_TYPE_METADATA : Nat := 1

/-- ACTION_TYPE_DISRUPTIVE = 2 in rule.go. -/
def ACTION_TYPE_DISRUPTIVE : Nat := 2

/-- ACTION_TYPE_DATA = 3 in rule.go. -/
def ACTION_TYPE_DATA : Nat := 3

/-- ACTION_TYPE_NONDISRUPTIVE = 4 in rule.go. -/
def ACTION_TYPE_NONDISRUPTIVE : Nat := 4

/-- ACTION_TYPE_FLOW = 5 in rule.go. -/
def ACTION_TYPE_FLOW : Nat := 5

/-- MatchData from the engine: one satisfied operator match
(collection, key, value). -/
structure MatchData where
  collection : String
  key : String
  value : String
deriving DecidableEq

/-- RuleVariable from rule.go: (Count, Collection, Key, Exceptions). -/
structure RuleVariable where
  count : Bool
  collection : String
  key : String
  exceptions : List String
deriving DecidableEq

/-- RuleOp from rule.go. The Operator interface method
Evaluate(tx, string) bool is embedded as a predicate on the opaque
collection store S (operators may consult the transaction but, per spec
section 4.3, must not mutate collections). -/
structure RuleOp (S : Type) where
  eval : S → String → Bool
  data : String
  negation : Bool

/-- An Action binding. Go actions are interface objects with identity;
`aid` tags that identity for the instrumented execution trace, `atype`
is GetType(), and `eval` is the Evaluate(*Rule, *Transaction) effect on
the collection store (spec section 4.4: actions mutate transaction
state). -/
structure ActionT (S : Type) where
  atype : Nat
  aid : Nat
  eval : S → S

/-- The non-chain fields of a Rule that Rule.Evaluate reads
(rule.go struct Rule; fields not read by Evaluate are omitted).
Transformations are embedded as the string functions that the
reflection dispatch of rule.go invokes. -/
structure RuleCore (S : Type) where
  vars : List RuleVariable
  operatorObj : RuleOp S
  transformations : List (String → String)
  multiMatch : Bool
  actions : List (ActionT S)
  parentId : Int
  id : Int
  log : Bool
  msg : String

/-- A Rule: its core fields plus the optional chained child
(rule.go field Chain, a singly linked list). -/
inductive Rule (S : Type) where
  | mk (core : RuleCore S) (chain : Option (Rule S))

/-- The core fields of a rule. -/
def Rule.core {S : Type} : Rule S → RuleCore S
  | .mk c _ => c

/-- The chained child of a rule. -/
def Rule.chain {S : Type} : Rule S → Option (Rule S)
  | .mk _ ch => ch

/-- Instrumentation events recorded by the embedded semantics, in
execution order: tx.MatchVars, an action invocation
(rule id, action id, action type), and tx.MatchRule. -/
inductive Event where
  | matchVars
  | execAction (rid : Int) (aid : Nat) (atype : Nat)
  | matchRule (rid : Int)
deriving DecidableEq

/-- The Transaction as seen by Rule.Evaluate: an opaque collection
store S (collections, capture state, interruption, remove lists),
the concrete matched_rules log (entries (rule id, messages, matches)),
and the instrumented event trace. -/
structure Tx (S : Type) where
  store : S
  matchedRules : List (Int × List String × List MatchData)
  events : List Event

/-- Modelled from the spec: the Transaction helper methods used by
Rule.Evaluate (spec section 4.5), none of which are in the provided
sources. `ruleRemoveById` reads tx.RuleRemoveById; `removedTargets` is
tx.GetRemovedTargets(id) as a list of (collection name, key);
`getField` is tx.GetField(collection, key, exceptions) with macro
expansion; `expandText` is tx.MacroExpansion; `matchVars`,
`setCapturable` and `matchRule` are the store effects of the
corresponding Transaction methods. -/
structure Env (S : Type) where
  ruleRemoveById : S → List Int
  removedTargets : S → Int → List (String × String)
  getField : S → String → String → List String → List MatchData
  expandText : S → String → String
  matchVars : List MatchData → S → S
  setCapturable : Bool → S → S
  matchRule : Int → List String → List MatchData → S → S

/-- rule.go Rule.executeOperator: apply the operator and invert the
result per argument when negation is set. -/
def executeOperator {S : Type} (op : RuleOp S) (s : S) (data : String) : Bool :=
  let result := op.eval s data
  if op.negation && result then false
  else if op.negation && !result then true
  else result

/-- rule.go Rule.executeTransformations: fold the transformation
pipeline over the value, in order (the source loop
`for _, t := range r.Transformations` with reflective call). -/
def executeTransformations : List (String → String) → String → String
  | [], value => value
  | t :: ts, value => executeTransformations ts (t value)

/-- rule.go Rule.executeTransformationsMultimatch: the original value
followed by one entry after each transformation, in order (the source
starts from `res := []string{value}` and appends the running value
after each transformation). -/
def executeTransformationsMultimatch : List (String → String) → String → List String
  | [], value => [value]
  | t :: ts, value => value :: executeTransformationsMultimatch ts (t value)

/-- The effective exception list for a variable (rule.go lines
136-144): a fresh copy of v.Exceptions extended with the keys of the
transaction-level removed targets whose collection name matches. -/
def buildExceptions (v : RuleVariable) (ecol : List (String × String)) : List String :=
  v.exceptions ++ (ecol.filter (fun c => c.1 = v.collection)).map (fun c => c.2)

/-- The count replacement of rule.go lines 148-160: when v.Count is
set, either replace the single matched entry's value with its byte
length (when a key was given and exactly one entry matched) or replace
the whole list by one MatchData carrying v.Collection, v.Key and the
decimal entry count. -/
def applyCount (v : RuleVariable) (values : List MatchData) : List MatchData :=
  if v.count then
    if v.key ≠ "" ∧ values.length = 1 then
      values.map (fun m => { m with value := Nat.repr m.value.utf8ByteSize })
    else
      [{ collection := v.collection, key := v.key, value := Nat.repr values.length }]
  else values

/-- The transformed argument list for one resolved value (rule.go lines
170-175): the multi-match sequence, or the single fully transformed
string. -/
def transformedArgs (tfs : List (String → String)) (mm : Bool) (value : String) : List String :=
  if mm then executeTransformationsMultimatch tfs value
  else [executeTransformations tfs value]

/-- The operator loop over the transformed arguments of one resolved
value (rule.go lines 169-186): each matching argument contributes a
MatchData with the value's collection and key and the transformed
argument as value. -/
def evalArg {S : Type} (op : RuleOp S) (tfs : List (String → String)) (mm : Bool)
    (s : S) (arg : MatchData) : List MatchData :=
  (transformedArgs tfs mm arg.value).filterMap (fun carg =>
    if executeOperator op s carg then
      some { collection := arg.collection, key := arg.key, value := carg }
    else none)

/-- The per-variable step of rule.go lines 134-187: build exceptions,
resolve values, apply the count replacement, and either test the
operator against the empty string (appending an all-empty MatchData on
match) when no value resolved, or run the transformed-argument operator
loop over each value. -/
def evalVariable {S : Type} (env : Env S) (op : RuleOp S)
    (tfs : List (String → String)) (mm : Bool) (s : S) (rid : Int)
    (v : RuleVariable) : List MatchData :=
  let ecol := env.removedTargets s rid
  let exceptions := buildExceptions v ecol
  let values := env.getField s v.collection v.key exceptions
  let values := applyCount v values
  if values.isEmpty then
    if executeOperator op s "" then [{ collection := "", key := "", value := "" }]
    else []
  else values.flatMap (evalArg op tfs mm s)

/-- The whole variable-matching step of a rule: the concatenation of the
per-variable match lists in variable-declaration order. -/
def varMatches {S : Type} (env : Env S) (c : RuleCore S) (s : S) : List MatchData :=
  c.vars.flatMap (evalVariable env c.operatorObj c.transformations c.multiMatch s c.id)

/-- The non-disruptive action pass of rule.go lines 197-201: every
action whose type is ACTION_TYPE_NONDISRUPTIVE is invoked, in
declaration order; each invocation is recorded in the event trace. -/
def runNonDisruptive {S : Type} (rid : Int) (acts : List (ActionT S)) (tx : Tx S) : Tx S :=
  acts.foldl (fun tx a =>
    if a.atype = ACTION_TYPE_NONDISRUPTIVE then
      { tx with store := a.eval tx.store
                events := tx.events ++ [Event.execAction rid a.aid a.atype] }
    else tx) tx

/-- The disruptive/flow action pass of rule.go lines 229-233: every
action whose type is ACTION_TYPE_DISRUPTIVE or ACTION_TYPE_FLOW is
invoked, in declaration order; each invocation is recorded. -/
def runDisruptiveFlow {S : Type} (rid : Int) (acts : List (ActionT S)) (tx : Tx S) : Tx S :=
  acts.foldl (fun tx a =>
    if a.atype = ACTION_TYPE_DISRUPTIVE ∨ a.atype = ACTION_TYPE_FLOW then
      { tx with store := a.eval tx.store
                events := tx.events ++ [Event.execAction rid a.aid a.atype] }
    else tx) tx

/-- rule.go lines 193-204: after a successful variable step, record the
matched variables (tx.MatchVars), run the non-disruptive actions, and
reset the capturable flag (tx.SetCapturable(false)). -/
def preludeTx {S : Type} (env : Env S) (c : RuleCore S) (mv : List MatchData)
    (tx : Tx S) : Tx S :=
  let tx1 : Tx S := { tx with store := env.matchVars mv tx.store
                              events := tx.events ++ [Event.matchVars] }
  let tx2 := runNonDisruptive c.id c.actions tx1
  { tx2 with store := env.setCapturable false tx2.store }

/-- rule.go lines 223-235: for a head rule (ParentId == 0), append
(rule, messages, matches) to tx.matched_rules when Log is set
(tx.MatchRule), then run the disruptive and flow actions; a chained
child rule does neither. -/
def finishRule {S : Type} (env : Env S) (c : RuleCore S)
    (matchedValues : List MatchData) (msgs : List String) (tx : Tx S) :
    List MatchData × Tx S :=
  if c.parentId = 0 then
    let tx1 : Tx S :=
      if c.log then
        { tx with matchedRules := tx.matchedRules ++ [(c.id, msgs, matchedValues)]
                  store := env.matchRule c.id msgs matchedValues tx.store
                  events := tx.events ++ [Event.matchRule c.id] }
      else tx
    (matchedValues, runDisruptiveFlow c.id c.actions tx1)
  else (matchedValues, tx)

mutual

/-- rule.go Rule.Evaluate, lines 125-236: skip check against
tx.RuleRemoveById, variable-matching step, early return on no match,
tx.MatchVars, non-disruptive actions, capturable reset, message
expansion, chain walk (failing the whole rule when a link returns
empty), and the head-only logging and disruptive/flow pass. -/
def evalRule {S : Type} (env : Env S) (r : Rule S) (tx : Tx S) :
    List MatchData × Tx S :=
  match r with
  | .mk c chain =>
    if (env.ruleRemoveById tx.store).contains c.id then ([], tx)
    else
      let matchedValues := varMatches env c tx.store
      if matchedValues.isEmpty then ([], tx)
      else
        let tx3 := preludeTx env c matchedValues tx
        let msgs := [env.expandText tx3.store c.msg]
        match chain with
        | none => finishRule env c matchedValues msgs tx3
        | some nr =>
          match evalChainRest env (some nr) tx3 with
          | (none, tx4) => ([], tx4)
          | (some (cm, cmsgs), tx4) =>
            finishRule env c (matchedValues ++ cm) (msgs ++ cmsgs) tx4
termination_by sizeOf r

/-- The chain walk of rule.go lines 207-222: evaluate each link in
order against the current transaction; a link returning an empty list
fails the whole chain (the transaction effects made so far persist);
otherwise collect the link's matches and expanded message. -/
def evalChainRest {S : Type} (env : Env S) (c : Option (Rule S)) (tx : Tx S) :
    Option (List MatchData × List String) × Tx S :=
  match c with
  | none => (some ([], []), tx)
  | some (.mk c2 ch2) =>
    match evalRule env (.mk c2 ch2) tx with
    | (m, tx1) =>
      if m.isEmpty then (none, tx1)
      else
        let msg := env.expandText tx1.store c2.msg
        match evalChainRest env ch2 tx1 with
        | (none, tx2) => (none, tx2)
        | (some (ms, msgs2), tx2) => (some (m ++ ms, msg :: msgs2), tx2)
termination_by sizeOf c

end

/-- Whether the skip check of rule.go lines 127-132 fires: the rule id
is listed in tx.RuleRemoveById. -/
def isSkipped {S : Type} (env : Env S) (r : Rule S) (tx : Tx S) : Bool :=
  (env.ruleRemoveById tx.store).contains r.core.id

/-- Whether the chain walk of a rule succeeds, starting from the state
the walk actually sees (after tx.MatchVars, the non-disruptive actions
and the capturable reset). True when the rule has no chain. -/
def chainMatched {S : Type} (env : Env S) (r : Rule S) (tx : Tx S) : Bool :=
  match r with
  | .mk c chain =>
    match evalChainRest env chain (preludeTx env c (varMatches env c tx.store) tx) with
    | (some _, _) => true
    | (none, _) => false

/-- The ids of the rules of a chain, in chain order. -/
def chainIds {S : Type} : Option (Rule S) → List Int
  | none => []
  | some (.mk c ch) => c.id :: chainIds ch

/-- Whether every rule of a chain has a non-zero ParentId (the spec
invariant for chained children: parent_id is 0 only for top-level
rules). -/
def chainAllNonRoot {S : Type} : Option (Rule S) → Bool
  | none => true
  | some (.mk c ch) => (c.parentId != 0) && chainAllNonRoot ch

/-- Whether every rule of a chain has an id different from `rid` (the
spec invariant that rule ids are unique within a ruleset). -/
def chainIdsNe {S : Type} (rid : Int) (ch : Option (Rule S)) : Bool :=
  (chainIds ch).all (fun i => !(i == rid))

/-- An event of kind disruptive or flow action execution. -/
def isDisruptiveFlowEvent : Event → Bool
  | .execAction _ _ t => t == ACTION_TYPE_DISRUPTIVE || t == ACTION_TYPE_FLOW
  | _ => false

/-- A non-disruptive action execution recorded for the rule `rid`. -/
def isNdActionOf (rid : Int) : Event → Bool
  | .execAction rid2 _ t => rid2 == rid && t == ACTION_TYPE_NONDISRUPTIVE
  | _ => false

/-- Whether an event is tagged with a rule id drawn from `ids`
(tx.MatchVars events carry no id and are always allowed). -/
def tagOk (ids : List Int) : Event → Bool
  | .matchVars => true
  | .execAction rid _ _ => decide (rid ∈ ids)
  | .matchRule rid => decide (rid ∈ ids)

/-- An event that the evaluation of an all-non-root chain may emit: a
tx.MatchVars record or a non-disruptive action of a chain rule. -/
def okChainEvent (ids : List Int) : Event → Bool
  | .matchVars => true
  | .execAction rid _ t => decide (rid ∈ ids) && (t == ACTION_TYPE_NONDISRUPTIVE)
  | .matchRule _ => false

/-- The trace of the non-disruptive pass: one event per action of type
ACTION_TYPE_NONDISRUPTIVE, in declaration order. -/
def ndEvents {S : Type} (rid : Int) (acts : List (ActionT S)) : List Event :=
  (acts.filter (fun a => decide (a.atype = ACTION_TYPE_NONDISRUPTIVE))).map
    (fun a => Event.execAction rid a.aid a.atype)

/-- The trace of the disruptive/flow pass: one event per action of type
ACTION_TYPE_DISRUPTIVE or ACTION_TYPE_FLOW, in declaration order. -/
def dfEvents {S : Type} (rid : Int) (acts : List (ActionT S)) : List Event :=
  (acts.filter (fun a =>
    decide (a.atype = ACTION_TYPE_DISRUPTIVE ∨ a.atype = ACTION_TYPE_FLOW))).map
    (fun a => Event.execAction rid a.aid a.atype)

/-! ### Go slice heap model for the exception-copy step (claim C7)

rule.go lines 136-144 are the one place in Rule.Evaluate where a rule
field could be mutated through Go slice aliasing; the source avoids it
with make + copy before appending. The heap assigns each backing array
an index; the rule's Exceptions slice is a cell of the heap. -/

/-- A heap of string backing arrays, addressed by allocation index. -/
structure SliceHeap where
  cells : List (List String)

/-- Read the backing array of a slice. -/
def heapRead (h : SliceHeap) (aid : Nat) : List String :=
  h.cells.getD aid []

/-- Allocate a fresh backing array, returning its index. -/
def heapAlloc (h : SliceHeap) (content : List String) : SliceHeap × Nat :=
  ({ cells := h.cells ++ [content] }, h.cells.length)

/-- Overwrite the backing array of a slice (the effect of Go copy into
a destination of equal length). -/
def heapWrite (h : SliceHeap) (aid : Nat) (content : List String) : SliceHeap :=
  { cells := h.cells.set aid content }

/-- Go append on a slice whose length equals its capacity (the case
after make of exact length): a fresh backing array is allocated. -/
def goAppend (h : SliceHeap) (aid : Nat) (x : String) : SliceHeap × Nat :=
  heapAlloc h (heapRead h aid ++ [x])

/-- rule.go lines 136-144 at slice level: make a fresh slice of the
length of v.Exceptions (the cell `vaid`), copy v.Exceptions into it,
then append the keys of the matching removed targets. Returns the heap
and the index of the resulting exceptions slice. -/
def buildExceptionsHeap (h : SliceHeap) (vaid : Nat) (vcollection : String)
    (ecol : List (String × String)) : SliceHeap × Nat :=
  let vdata := heapRead h vaid
  let alloc := heapAlloc h (List.replicate vdata.length "")
  let h2 := heapWrite alloc.1 alloc.2 vdata
  ecol.foldl (fun p c => if c.1 = vcollection then goAppend p.1 p.2 c.2 else p)
    (h2, alloc.2)

/-! ### Audit logger model (claims C8, C9)

ConcurrentLogger.WriteAudit from the engine source. The Transaction
accessors it calls (GetCollection(...).GetFirstString and friends,
GetAuditPath, ToAuditJson) are not in the provided sources and are
modelled from the spec as fields of AuditTx; time.Unix decomposition of
the nanosecond timestamp is likewise carried as broken-down parts. The
rendering of the Go time layout string is translated from the
documented layout-token rules of the Go time package. -/

/-- Broken-down time of the transaction timestamp: the result of
decomposing time.Unix(0, tx.Timestamp) in the transaction's zone.
`zoneMinutes` is the UTC offset in minutes (east positive). -/
structure DateParts where
  day : Nat
  month : Nat
  year : Nat
  hour : Nat
  minute : Nat
  second : Nat
  zoneMinutes : Int
deriving DecidableEq

/-- Decimal rendering of a natural number (strconv semantics). -/
def natStr (n : Nat) : String := Nat.repr n

/-- Two-digit zero-padded rendering used by the zero-pad layout
tokens. -/
def pad2 (n : Nat) : String :=
  if n < 10 then "0" ++ Nat.repr n else Nat.repr n

/-- Three-letter month name (layout token Jan). -/
def monthName3 : Nat → String
  | 1 => "Jan" | 2 => "Feb" | 3 => "Mar" | 4 => "Apr" | 5 => "May" | 6 => "Jun"
  | 7 => "Jul" | 8 => "Aug" | 9 => "Sep" | 10 => "Oct" | 11 => "Nov" | 12 => "Dec"
  | _ => "---"

/-- Hour on the 12-hour clock (layout tokens 3 and 03). -/
def hour12 (h : Nat) : Nat :=
  let m := h % 12
  if m = 0 then 12 else m

/-- The numeric time zone of layout token -0700: sign, then hours and
minutes of the UTC offset, each two digits. -/
def zone4 (zoneMinutes : Int) : String :=
  let sign := if zoneMinutes < 0 then "-" else "+"
  let m := zoneMinutes.natAbs
  sign ++ pad2 (m / 60) ++ pad2 (m % 60)

/-- Modelled from the Go time package layout rules: scan the layout
left to right, replacing each recognized reference-time token by the
corresponding field of the time and copying every other byte verbatim.
The token scan follows the documented precedence of Go
time.nextStdChunk for the characters that can start a token in the
audit layout: 2006 before 2 (day of month), 01..06 zero-padded fields,
15 (zero-padded 24-hour) before 1 (month), bare 3, 4, 5, the month
names starting at J, and the -0700 numeric zone. Unrecognized bytes -
including the 0 left after the 2 of the layout fragment 20 is consumed
as the day token - are literals. -/
def goTimeFormat : List Char → DateParts → String
  | [], _ => ""
  | '2' :: '0' :: '0' :: '6' :: rest, p => natStr p.year ++ goTimeFormat rest p
  | '0' :: '1' :: rest, p => pad2 p.month ++ goTimeFormat rest p
  | '0' :: '2' :: rest, p => pad2 p.day ++ goTimeFormat rest p
  | '0' :: '3' :: rest, p => pad2 (hour12 p.hour) ++ goTimeFormat rest p
  | '0' :: '4' :: rest, p => pad2 p.minute ++ goTimeFormat rest p
  | '0' :: '5' :: rest, p => pad2 p.second ++ goTimeFormat rest p
  | '0' :: '6' :: rest, p => pad2 (p.year % 100) ++ goTimeFormat rest p
  | '1' :: '5' :: rest, p => pad2 p.hour ++ goTimeFormat rest p
  | '1' :: rest, p => natStr p.month ++ goTimeFormat rest p
  | '2' :: rest, p => natStr p.day ++ goTimeFormat rest p
  | '3' :: rest, p => natStr (hour12 p.hour) ++ goTimeFormat rest p
  | '4' :: rest, p => natStr p.minute ++ goTimeFormat rest p
  | '5' :: rest, p => natStr p.second ++ goTimeFormat rest p
  | 'J' :: 'a' :: 'n' :: rest, p => monthName3 p.month ++ goTimeFormat rest p
  | '-' :: '0' :: '7' :: '0' :: '0' :: rest, p => zone4 p.zoneMinutes ++ goTimeFormat rest p
  | ch :: rest, p => String.singleton ch ++ goTimeFormat rest p

/-- The audit timestamp layout of the source, line 53:
t.Format with layout 02/Jan/2006:15:04:20 -0700. -/
def auditTimeLayout : List Char :=
  ['0', '2', '/', 'J', 'a', 'n', '/', '2', '0', '0', '6', ':', '1', '5', ':',
   '0', '4', ':', '2', '0', ' ', '-', '0', '7', '0', '0']

/-- Minimal model of the Go %q verb for the audit line arguments: wrap
in double quotes, escaping backslash and double quote (the arguments
quoted by the source are request lines and dash placeholders, for which
this agrees with strconv.Quote). -/
def goQuote (s : String) : String :=
  "\"" ++ String.join (s.data.map (fun ch =>
    if ch = '"' then "\\\""
    else if ch = '\\' then "\\\\"
    else String.singleton ch)) ++ "\""

/-- Modelled from the spec: path.Join of the audit directory and file
name (cleaning of duplicate separators is irrelevant to the claims). -/
def pathJoin (a b : String) : String :=
  if a = "" then b else if b = "" then a else a ++ "/" ++ b

/-- Modelled from the spec: the per-transaction data WriteAudit reads
through Transaction accessors that are not in the provided sources.
`timestampParts` is the broken-down form of time.Unix(0, tx.Timestamp);
`remoteAddr`, `requestLine`, `responseStatus`, `responseLength`,
`requestLength` are the GetCollection(...).GetFirst* reads; `auditDir`
and `auditFname` are tx.GetAuditPath(); `auditJson` is the byte
sequence tx.ToAuditJson(). -/
structure AuditTx where
  timestampParts : DateParts
  remoteAddr : String
  requestLine : String
  responseStatus : Int
  responseLength : Int
  requestLength : Int
  id : String
  auditDir : String
  auditFname : String
  auditJson : List Nat

/-- The concise audit line of WriteAudit (source line 65): the Sprintf
format `%s %s - - [%s] %q %d %d %q %q %s %q %s %d %d` applied to the
client IP, the server IP placeholder, the formatted timestamp, the
request line, the response status and length, two quoted dashes, the
transaction id, a quoted dash, the JSON file path, the literal 0 and
the request body length. -/
def auditLine (tx : AuditTx) : String :=
  let ts := goTimeFormat auditTimeLayout tx.timestampParts
  let filepath := pathJoin tx.auditDir tx.auditFname
  tx.remoteAddr ++ " " ++ "-" ++ " - - [" ++ ts ++ "] " ++
    goQuote tx.requestLine ++ " " ++ Int.repr tx.responseStatus ++ " " ++
    Int.repr tx.responseLength ++ " " ++ goQuote "-" ++ " " ++ goQuote "-" ++ " " ++
    tx.id ++ " " ++ goQuote "-" ++ " " ++ filepath ++ " " ++ Int.repr 0 ++ " " ++
    Int.repr tx.requestLength

/-- File system state visible to the audit logger: created directories,
regular files as (path, byte content, permission mode), and the lines
appended so far to the central audit file. -/
structure FS where
  dirs : List String
  files : List (String × List Nat × Nat)
  auditLines : List String

/-- Look up a file, returning its content and mode. -/
def fileLookup (files : List (String × List Nat × Nat)) (p : String) :
    Option (List Nat × Nat) :=
  (files.find? (fun f => f.1 == p)).map (fun f => f.2)

/-- Create or truncate a file (the open step of ioutil.WriteFile): a
new file is created with the given mode; an existing file keeps its
mode and loses its content. -/
def setFile (files : List (String × List Nat × Nat)) (p : String)
    (content : List Nat) (mode : Nat) : List (String × List Nat × Nat) :=
  match fileLookup files p with
  | some (_, m0) => files.map (fun f => if f.1 == p then (p, content, m0) else f)
  | none => files ++ [(p, content, mode)]

/-- Outcome of a file write: success, or failure after k bytes were
written. -/
inductive WriteOutcome where
  | ok
  | failAfter (k : Nat)
deriving DecidableEq

/-- The behaviour of the host file system during one WriteAudit call:
whether os.MkdirAll succeeds and how the ioutil.WriteFile write ends. -/
structure AuditOracle where
  mkdirOk : Bool
  writeOutcome : WriteOutcome

/-- Modelled from the Go standard library documentation of
ioutil.WriteFile: open with create-or-truncate and the given mode, then
write the data sequentially; on failure the bytes written so far remain
at the final path and an error is returned. There is no temporary file
or rename. -/
def writeFileModel (fs : FS) (p : String) (data : List Nat) (mode : Nat) :
    WriteOutcome → FS × Bool
  | .ok => ({ fs with files := setFile fs.files p data mode }, true)
  | .failAfter k => ({ fs with files := setFile fs.files p (data.take k) mode }, false)

/-- ConcurrentLogger.WriteAudit (source lines 48-80): format the
timestamp and the concise line, create the audit directory, write the
JSON document to the joined path with mode 0600, and only when that
write succeeded append the concise line to the central audit file. Any
error is returned to the caller and stops the sequence. The Bool result
is true exactly when no error occurred. -/
def writeAudit (orc : AuditOracle) (tx : AuditTx) (fs : FS) : FS × Bool :=
  let str := auditLine tx
  let filepath := pathJoin tx.auditDir tx.auditFname
  if orc.mkdirOk then
    let fs1 : FS := { fs with dirs := fs.dirs ++ [tx.auditDir] }
    let wr := writeFileModel fs1 filepath tx.auditJson 0o600 orc.writeOutcome
    if wr.2 then ({ wr.1 with auditLines := wr.1.auditLines ++ [str] }, true)
    else (wr.1, false)
  else (fs, false)

/-! ### MD5 (claim C10)

The Md5 transformation of the utils sources calls the Go standard
library crypto/md5 and returns string(h.Sum(nil)), the raw 16-byte
digest. The digest computation below is the RFC 1321 algorithm over the
UTF-8 bytes of the input, with 32-bit words as naturals reduced modulo
2^32. -/

/-- Reduce modulo 2^32. -/
def u32 (n : Nat) : Nat := n % 4294967296

/-- Bitwise complement on 32-bit words. -/
def not32 (b : Nat) : Nat := b ^^^ 4294967295

/-- Rotate a 32-bit word left by s bits (0 ≤ s < 32). -/
def rotl32 (x s : Nat) : Nat := u32 (x <<< s) ||| (x >>> (32 - s))

/-- MD5 round function F. -/
def mdF (b c d : Nat) : Nat := (b &&& c) ||| (not32 b &&& d)

/-- MD5 round function G. -/
def mdG (b c d : Nat) : Nat := (d &&& b) ||| (not32 d &&& c)

/-- MD5 round function H. -/
def mdH (b c d : Nat) : Nat := b ^^^ c ^^^ d

/-- MD5 round function I. -/
def mdI (b c d : Nat) : Nat := c ^^^ (b ||| not32 d)

/-- The 64 MD5 sine-derived constants. -/
def md5K : List Nat :=
  [0xd76aa478, 0xe8c7b756, 0x242070db, 0xc1bdceee,
   0xf57c0faf, 0x4787c62a, 0xa8304613, 0xfd469501,
   0x698098d8, 0x8b44f7af, 0xffff5bb1, 0x895cd7be,
   0x6b901122, 0xfd987193, 0xa679438e, 0x49b40821,
   0xf61e2562, 0xc040b340, 0x265e5a51, 0xe9b6c7aa,
   0xd62f105d, 0x02441453, 0xd8a1e681, 0xe7d3fbc8,
   0x21e1cde6, 0xc33707d6, 0xf4d50d87, 0x455a14ed,
   0xa9e3e905, 0xfcefa3f8, 0x676f02d9, 0x8d2a4c8a,
   0xfffa3942, 0x8771f681, 0x6d9d6122, 0xfde5380c,
   0xa4beea44, 0x4bdecfa9, 0xf6bb4b60, 0xbebfbc70,
   0x289b7ec6, 0xeaa127fa, 0xd4ef3085, 0x04881d05,
   0xd9d4d039, 0xe6db99e5, 0x1fa27cf8, 0xc4ac5665,
   0xf4292244, 0x432aff97, 0xab9423a7, 0xfc93a039,
   0x655b59c3, 0x8f0ccc92, 0xffeff47d, 0x85845dd1,
   0x6fa87e4f, 0xfe2ce6e0, 0xa3014314, 0x4e0811a1,
   0xf7537e82, 0xbd3af235, 0x2ad7d2bb, 0xeb86d391]

/-- The 64 MD5 per-round shift amounts. -/
def md5S : List Nat :=
  [7, 12, 17, 22, 7, 12, 17, 22, 7, 12, 17, 22, 7, 12, 17, 22,
   5, 9, 14, 20, 5, 9, 14, 20, 5, 9, 14, 20, 5, 9, 14, 20,
   4, 11, 16, 23, 4, 11, 16, 23, 4, 11, 16, 23, 4, 11, 16, 23,
   6, 10, 15, 21, 6, 10, 15, 21, 6, 10, 15, 21, 6, 10, 15, 21]

/-- Little-endian 32-bit word g of a 64-byte block. -/
def md5Word (block : List Nat) (g : Nat) : Nat :=
  block.getD (4 * g) 0 + 256 * block.getD (4 * g + 1) 0 +
    65536 * block.getD (4 * g + 2) 0 + 16777216 * block.getD (4 * g + 3) 0

/-- One MD5 round i on the working state (a, b, c, d). -/
def md5Step (block : List Nat) (st : Nat × Nat × Nat × Nat) (i : Nat) :
    Nat × Nat × Nat × Nat :=
  let a := st.1
  let b := st.2.1
  let c := st.2.2.1
  let d := st.2.2.2
  let f := if i < 16 then mdF b c d
    else if i < 32 then mdG b c d
    else if i < 48 then mdH b c d
    else mdI b c d
  let g := if i < 16 then i
    else if i < 32 then (5 * i + 1) % 16
    else if i < 48 then (3 * i + 5) % 16
    else (7 * i) % 16
  let tmp := u32 (a + f + md5K.getD i 0 + md5Word block g)
  (d, u32 (b + rotl32 tmp (md5S.getD i 0)), b, c)

/-- Process one 64-byte block: 64 rounds, then add the previous state. -/
def md5Block (st : Nat × Nat × Nat × Nat) (block : List Nat) :
    Nat × Nat × Nat × Nat :=
  let e := (List.range 64).foldl (md5Step block) st
  (u32 (e.1 + st.1), u32 (e.2.1 + st.2.1),
   u32 (e.2.2.1 + st.2.2.1), u32 (e.2.2.2 + st.2.2.2))

/-- Split a byte list into 64-byte blocks (fuel-indexed so the
definition reduces in the kernel; the fuel `l.length` always
suffices). -/
def chunks64Fuel : Nat → List Nat → List (List Nat)
  | 0, _ => []
  | _, [] => []
  | fuel + 1, l => l.take 64 :: chunks64Fuel fuel (l.drop 64)

/-- Split a byte list into 64-byte blocks. -/
def chunks64 (l : List Nat) : List (List Nat) := chunks64Fuel l.length l

/-- Little-endian 8-byte rendering of a 64-bit length. -/
def le8 (n : Nat) : List Nat := (List.range 8).map (fun i => n / 256 ^ i % 256)

/-- Little-endian 4-byte rendering of a 32-bit word. -/
def le4 (n : Nat) : List Nat :=
  [n % 256, n / 256 % 256, n / 65536 % 256, n / 16777216 % 256]

/-- RFC 1321 padding: a 0x80 byte, zeros to 56 modulo 64, then the
bit length as a little-endian 64-bit number. -/
def md5Pad (msg : List Nat) : List Nat :=
  msg ++ [128] ++ List.replicate ((119 - msg.length % 64) % 64) 0 ++
    le8 (8 * msg.length % 18446744073709551616)

/-- The raw 16-byte MD5 digest of a byte sequence. -/
def md5Bytes (msg : List Nat) : List Nat :=
  let st := (chunks64 (md5Pad msg)).foldl md5Block
    (0x67452301, 0xefcdab89, 0x98badcfe, 0x10325476)
  le4 st.1 ++ le4 st.2.1 ++ le4 st.2.2.1 ++ le4 st.2.2.2

/-- UTF-8 encoding of one character. -/
def charUtf8 (c : Char) : List Nat :=
  let n := c.toNat
  if n < 128 then [n]
  else if n < 2048 then [192 + n / 64, 128 + n % 64]
  else if n < 65536 then [224 + n / 4096, 128 + n / 64 % 64, 128 + n % 64]
  else [240 + n / 262144, 128 + n / 4096 % 64, 128 + n / 64 % 64, 128 + n % 64]

/-- The byte sequence of a string (Go strings are UTF-8 byte
sequences; io.WriteString hashes exactly these bytes). -/
def strBytes (s : String) : List Nat := s.data.flatMap charUtf8

/-- The Md5 transformation of the utils sources: the raw (not hex
encoded) 16-byte MD5 digest of the input, returned as a byte string
(Go string(h.Sum(nil))). -/
def Md5 (data : String) : List Nat := md5Bytes (strBytes data)

/-! ### Concrete instances used by witnesses and counterexamples -/

/-- The empty transaction over the unit store. -/
def txU : Tx Unit := { store := (), matchedRules := [], events := [] }

/-- A concrete environment over the unit store: the ARGS collection
resolves to one value, nothing is removed. -/
def envU : Env Unit := {
  ruleRemoveById := fun _ => []
  removedTargets := fun _ _ => []
  getField := fun _ col _ _ =>
    if col = "ARGS" then [{ collection := "ARGS", key := "x", value := "1" }] else []
  expandText := fun _ s => s
  matchVars := fun _ s => s
  setCapturable := fun _ s => s
  matchRule := fun _ _ _ s => s
}

/-- envU with rule id 7 listed in tx.RuleRemoveById. -/
def envUSkip : Env Unit :=
  { envU with ruleRemoveById := fun _ => [7] }

/-- A chainless head rule (id 7) whose operator always matches. -/
def ruleSimple : Rule Unit := .mk {
  vars := [{ count := false, collection := "ARGS", key := "", exceptions := [] }]
  operatorObj := { eval := fun _ _ => true, data := "", negation := false }
  transformations := []
  multiMatch := false
  actions := []
  parentId := 0
  id := 7
  log := true
  msg := "m"
} none

/-- A chained child (id 2, parent 1) whose operator never matches. -/
def childFail : Rule Unit := .mk {
  vars := [{ count := false, collection := "ARGS", key := "", exceptions := [] }]
  operatorObj := { eval := fun _ _ => false, data := "", negation := false }
  transformations := []
  multiMatch := false
  actions := []
  parentId := 1
  id := 2
  log := false
  msg := "child"
} none

/-- A chained child (id 2, parent 1) whose operator always matches and
which carries one non-disruptive action. -/
def childOk : Rule Unit := .mk {
  vars := [{ count := false, collection := "ARGS", key := "", exceptions := [] }]
  operatorObj := { eval := fun _ _ => true, data := "", negation := false }
  transformations := []
  multiMatch := false
  actions := [{ atype := 4, aid := 5, eval := fun s => s }]
  parentId := 1
  id := 2
  log := false
  msg := "child"
} none

/-- A head rule (id 1) with one non-disruptive and one disruptive
action whose chain child never matches. -/
def headFail : Rule Unit := .mk {
  vars := [{ count := false, collection := "ARGS", key := "", exceptions := [] }]
  operatorObj := { eval := fun _ _ => true, data := "", negation := false }
  transformations := []
  multiMatch := false
  actions := [{ atype := 4, aid := 0, eval := fun s => s },
              { atype := 2, aid := 1, eval := fun s => s }]
  parentId := 0
  id := 1
  log := true
  msg := "head"
} (some childFail)

/-- A head rule (id 1) with one non-disruptive and one disruptive
action whose chain child always matches. -/
def headOk : Rule Unit := .mk {
  vars := [{ count := false, collection := "ARGS", key := "", exceptions := [] }]
  operatorObj := { eval := fun _ _ => true, data := "", negation := false }
  transformations := []
  multiMatch := false
  actions := [{ atype := 4, aid := 0, eval := fun s => s },
              { atype := 2, aid := 1, eval := fun s => s }]
  parentId := 0
  id := 1
  log := true
  msg := "head"
} (some childOk)

/-- Broken-down time 22/Aug/2009 13:24:05 +0100 (seconds of minute 5,
day of month 22). -/
def partsEx : DateParts :=
  { day := 22, month := 8, year := 2009, hour := 13, minute := 24, second := 5,
    zoneMinutes := 60 }

/-- A concrete audit transaction matching the example line quoted in
the source comment, with seconds of minute 5. -/
def auditTxEx : AuditTx :=
  { timestampParts := partsEx
    remoteAddr := "192.168.3.130"
    requestLine := "GET / HTTP/1.1"
    responseStatus := 200
    responseLength := 56
    requestLength := 1248
    id := "SojdH8AAQEAAAugAQAAAAAA"
    auditDir := "/logs/200908"
    auditFname := "f1"
    auditJson := [123, 125, 10] }

/-- The empty file system. -/
def fsEmpty : FS := { dirs := [], files := [], auditLines := [] }

/-- An oracle whose directory creation succeeds and whose JSON write
fails after one byte. -/
def orcFail1 : AuditOracle := { mkdirOk := true, writeOutcome := .failAfter 1 }

/-- An oracle for which both file system operations succeed. -/
def orcOk : AuditOracle := { mkdirOk := true, writeOutcome := .ok }

/-- Transformations appending a and b, for the multi-match witness. -/
def wTfs : List (String → String) :=
  [fun v => v ++ "a", fun v => v ++ "b"]

/-! ## Theorems -/

theorem multimatch_length (tfs : List (String → String)) (s : String) :
    (executeTransformationsMultimatch tfs s).length = tfs.length + 1 := by
  induction tfs generalizing s with
  | nil => simp [executeTransformationsMultimatch]
  | cons t ts ih => simp [executeTransformationsMultimatch, ih]

theorem multimatch_get (tfs : List (String → String)) (s : String) (i : Nat)
    (h : i ≤ tfs.length) :
    (executeTransformationsMultimatch tfs s)[i]? =
      some (executeTransformations (tfs.take i) s) := by
  induction tfs generalizing s i with
  | nil =>
    have : i = 0 := Nat.le_zero.mp h
    subst this
    simp [executeTransformationsMultimatch, executeTransformations]
  | cons t ts ih =>
    cases i with
    | zero => simp [executeTransformationsMultimatch, executeTransformations]
    | succ j =>
      have hj : j ≤ ts.length := Nat.succ_le_succ_iff.mp h
      simp only [executeTransformationsMultimatch, List.getElem?_cons_succ,
        List.take_succ_cons, executeTransformations]
      exact ih (t s) j hj

/-- Claim C5: executeTransformationsMultimatch returns 1 + n entries,
the (i+1)-th being the result of the first i transformations applied in
order; the first entry is the input and the last coincides with
executeTransformations, the single argument used when multi_match is
off. -/
theorem c5_multimatch_pipeline (tfs : List (String → String)) (s : String) :
    (executeTransformationsMultimatch tfs s).length = tfs.length + 1 ∧
    (∀ i, i ≤ tfs.length →
      (executeTransformationsMultimatch tfs s)[i]? =
        some (executeTransformations (tfs.take i) s)) ∧
    (executeTransformationsMultimatch tfs s)[0]? = some s ∧
    (executeTransformationsMultimatch tfs s).getLast? =
      some (executeTransformations tfs s) := by
  refine ⟨multimatch_length tfs s, fun i h => multimatch_get tfs s i h, ?_, ?_⟩
  · have h0 := multimatch_get tfs s 0 (Nat.zero_le _)
    simpa [executeTransformations] using h0
  · have hlast := multimatch_get tfs s tfs.length (Nat.le_refl _)
    rw [List.getLast?_eq_getElem?, multimatch_length tfs s]
    simpa using hlast

/-- Witness for C5: the pipeline appending a then b on input x. -/
theorem c5_multimatch_pipeline_witness :
    (executeTransformationsMultimatch wTfs "x").length = wTfs.length + 1 ∧
    (executeTransformationsMultimatch wTfs "x")[1]? =
      some (executeTransformations (wTfs.take 1) "x") :=
  ⟨(c5_multimatch_pipeline wTfs "x").1,
   (c5_multimatch_pipeline wTfs "x").2.1 1 (by decide)⟩

/-- Claim C4: for a count variable the resolved list is replaced by a
single MatchData whose value is a decimal numeral: the byte length of
the single entry when a key was given and exactly one entry matched,
the total entry count (carrying v.collection and v.key, hence an empty
key for a whole-collection count) otherwise; and in evalVariable this
replacement happens before transformations, which are then applied to
that single numeric argument. -/
theorem c4_count_replacement {S : Type} (env : Env S) (op : RuleOp S)
    (tfs : List (String → String)) (mm : Bool) (s : S) (rid : Int)
    (v : RuleVariable) (values : List MatchData) (hc : v.count = true) :
    (applyCount v values).length = 1 ∧
    ((v.key ≠ "" ∧ values.length = 1) → ∀ m, values = [m] →
      applyCount v values = [{ m with value := Nat.repr m.value.utf8ByteSize }]) ∧
    ((v.key = "" ∨ values.length ≠ 1) →
      applyCount v values =
        [{ collection := v.collection, key := v.key,
           value := Nat.repr values.length }]) ∧
    (∃ cv, applyCount v (env.getField s v.collection v.key
        (buildExceptions v (env.removedTargets s rid))) = [cv] ∧
      evalVariable env op tfs mm s rid v = evalArg op tfs mm s cv) := by
  have hlen : ∀ vals : List MatchData, (applyCount v vals).length = 1 := by
    intro vals
    simp only [applyCount, hc, if_true]
    split
    · next hcond => simp [hcond.2]
    · simp
  refine ⟨hlen values, ?_, ?_, ?_⟩
  · rintro ⟨hk, hl⟩ m rfl
    simp [applyCount, hc, hk]
  · intro hor
    have hcond : ¬(v.key ≠ "" ∧ values.length = 1) := by
      rcases hor with h1 | h2
      · exact fun hh => hh.1 h1
      · exact fun hh => h2 hh.2
    simp [applyCount, hc, hcond]
  · obtain ⟨cv, hcv⟩ := List.length_eq_one.mp
      (hlen (env.getField s v.collection v.key
        (buildExceptions v (env.removedTargets s rid))))
    refine ⟨cv, hcv, ?_⟩
    simp [evalVariable, hcv]

/-- Witness for C4: a whole-collection count of two entries yields the
single numeral 2 with empty key. -/
theorem c4_count_replacement_witness :
    applyCount { count := true, collection := "ARGS", key := "", exceptions := [] }
      [{ collection := "ARGS", key := "a", value := "u" },
       { collection := "ARGS", key := "b", value := "v" }] =
      [{ collection := "ARGS", key := "", value := "2" }] := by
  have h := (c4_count_replacement envU
      { eval := fun _ _ => true, data := "", negation := false }
      [] false () 0
      { count := true, collection := "ARGS", key := "", exceptions := [] }
      [{ collection := "ARGS", key := "a", value := "u" },
       { collection := "ARGS", key := "b", value := "v" }] rfl).2.2.1
    (Or.inl rfl)
  simpa using h

theorem finishRule_fst {S : Type} (env : Env S) (c : RuleCore S)
    (mv : List MatchData) (msgs : List String) (tx : Tx S) :
    (finishRule env c mv msgs tx).1 = mv := by
  unfold finishRule
  split <;> rfl

/-- Claim C1 (amended with the skip-check proviso): provided the rule
id is not in tx.RuleRemoveById, Rule.Evaluate returns a non-empty list
iff the variable-matching step (operator with per-argument negation
over all transformed arguments of all variables, counting a match
against the empty string when a variable resolves to no values)
produced at least one match and the chain walk succeeded, i.e. every
chained child evaluation in sequence returned a non-empty list. -/
theorem c1_evaluate_nonempty_iff {S : Type} (env : Env S) (r : Rule S) (tx : Tx S)
    (h : isSkipped env r tx = false) :
    (evalRule env r tx).1 ≠ [] ↔
      (varMatches env r.core tx.store ≠ [] ∧ chainMatched env r tx = true) := by
  cases r with
  | mk c chain =>
    simp only [isSkipped, Rule.core] at h
    rw [evalRule]
    simp only [h, Bool.false_eq_true, if_false, Rule.core]
    by_cases hmv : (varMatches env c tx.store).isEmpty
    · have hmv2 : varMatches env c tx.store = [] := List.isEmpty_iff.mp hmv
      simp [hmv, hmv2]
    · have hmv2 : varMatches env c tx.store ≠ [] := by
        simpa [List.isEmpty_iff] using hmv
      cases chain with
      | none =>
        simp only [hmv, if_false, chainMatched, evalChainRest]
        simp [finishRule_fst, hmv2]
      | some nr =>
        rcases hev : evalChainRest env (some nr)
            (preludeTx env c (varMatches env c tx.store) tx) with ⟨o, tx4⟩
        cases o with
        | none =>
          simp only [hmv, if_false, chainMatched, hev]
          simp
        | some p =>
          rcases p with ⟨cm, cmsgs⟩
          simp only [hmv, if_false, chainMatched, hev]
          simp [finishRule_fst, hmv2]

/-- Counterexample to C1 as stated: a rule whose id is listed in
tx.RuleRemoveById returns the empty list even though its operator
matches an argument and its (empty) chain holds, so the stated
equivalence fails without the skip-check proviso. -/
theorem c1_counterexample :
    (evalRule envUSkip ruleSimple txU).1 = [] ∧
    varMatches envUSkip ruleSimple.core txU.store ≠ [] ∧
    chainMatched envUSkip ruleSimple txU = true := by
  refine ⟨?_, ?_, ?_⟩
  · simp [evalRule, envUSkip, envU, ruleSimple, txU]
  · simp [varMatches, ruleSimple, envUSkip, envU, txU, evalVariable, applyCount,
      buildExceptions, evalArg, transformedArgs, executeTransformations,
      executeOperator, Rule.core]
  · simp [chainMatched, evalChainRest, envUSkip, envU, ruleSimple, txU]

/-- Witness for C1 at a concrete non-skipped rule. -/
theorem c1_evaluate_nonempty_iff_witness :
    (evalRule envU ruleSimple txU).1 ≠ [] ↔
      (varMatches envU ruleSimple.core txU.store ≠ [] ∧
       chainMatched envU ruleSimple txU = true) :=
  c1_evaluate_nonempty_iff envU ruleSimple txU (by
    simp [isSkipped, envU, ruleSimple, txU, Rule.core])

theorem ndEvents_cons {S : Type} (rid : Int) (a : ActionT S) (as : List (ActionT S)) :
    ndEvents rid (a :: as) =
      (if a.atype = ACTION_TYPE_NONDISRUPTIVE then
        [Event.execAction rid a.aid a.atype] else []) ++ ndEvents rid as := by
  simp only [ndEvents, List.filter_cons]
  split
  · next hc =>
    rw [if_pos (by simpa using hc)]
    simp
  · next hc =>
    rw [if_neg (by simpa using hc)]
    simp

theorem dfEvents_cons {S : Type} (rid : Int) (a : ActionT S) (as : List (ActionT S)) :
    dfEvents rid (a :: as) =
      (if a.atype = ACTION_TYPE_DISRUPTIVE ∨ a.atype = ACTION_TYPE_FLOW then
        [Event.execAction rid a.aid a.atype] else []) ++ dfEvents rid as := by
  simp only [dfEvents, List.filter_cons]
  split
  · next hc =>
    rw [if_pos (by simpa using hc)]
    simp
  · next hc =>
    rw [if_neg (by simpa using hc)]
    simp

theorem runNonDisruptive_spec {S : Type} (rid : Int) (acts : List (ActionT S))
    (tx : Tx S) :
    (runNonDisruptive rid acts tx).events = tx.events ++ ndEvents rid acts ∧
    (runNonDisruptive rid acts tx).matchedRules = tx.matchedRules := by
  induction acts generalizing tx with
  | nil => simp [runNonDisruptive, ndEvents]
  | cons a as ih =>
    have hstep : runNonDisruptive rid (a :: as) tx
        = runNonDisruptive rid as
          (if a.atype = ACTION_TYPE_NONDISRUPTIVE then
            { tx with store := a.eval tx.store
                      events := tx.events ++ [Event.execAction rid a.aid a.atype] }
           else tx) := rfl
    rw [hstep, ndEvents_cons]
    by_cases ha : a.atype = ACTION_TYPE_NONDISRUPTIVE
    · rw [if_pos ha, if_pos ha]
      have h := ih ({ tx with store := a.eval tx.store
                              events := tx.events ++ [Event.execAction rid a.aid a.atype] } : Tx S)
      exact ⟨by rw [h.1]; simp, h.2⟩
    · rw [if_neg ha, if_neg ha]
      have h := ih tx
      exact ⟨by rw [h.1]; simp, h.2⟩

theorem runDisruptiveFlow_spec {S : Type} (rid : Int) (acts : List (ActionT S))
    (tx : Tx S) :
    (runDisruptiveFlow rid acts tx).events = tx.events ++ dfEvents rid acts ∧
    (runDisruptiveFlow rid acts tx).matchedRules = tx.matchedRules := by
  induction acts generalizing tx with
  | nil => simp [runDisruptiveFlow, dfEvents]
  | cons a as ih =>
    have hstep : runDisruptiveFlow rid (a :: as) tx
        = runDisruptiveFlow rid as
          (if a.atype = ACTION_TYPE_DISRUPTIVE ∨ a.atype = ACTION_TYPE_FLOW then
            { tx with store := a.eval tx.store
                      events := tx.events ++ [Event.execAction rid a.aid a.atype] }
           else tx) := rfl
    rw [hstep, dfEvents_cons]
    by_cases ha : a.atype = ACTION_TYPE_DISRUPTIVE ∨ a.atype = ACTION_TYPE_FLOW
    · rw [if_pos ha, if_pos ha]
      have h := ih ({ tx with store := a.eval tx.store
                              events := tx.events ++ [Event.execAction rid a.aid a.atype] } : Tx S)
      exact ⟨by rw [h.1]; simp, h.2⟩
    · rw [if_neg ha, if_neg ha]
      have h := ih tx
      exact ⟨by rw [h.1]; simp, h.2⟩

theorem preludeTx_spec {S : Type} (env : Env S) (c : RuleCore S)
    (mv : List MatchData) (tx : Tx S) :
    (preludeTx env c mv tx).events =
      tx.events ++ (Event.matchVars :: ndEvents c.id c.actions) ∧
    (preludeTx env c mv tx).matchedRules = tx.matchedRules := by
  have h := runNonDisruptive_spec c.id c.actions
    ({ tx with store := env.matchVars mv tx.store
               events := tx.events ++ [Event.matchVars] } : Tx S)
  simp only [preludeTx]
  constructor
  · rw [h.1]
    simp
  · exact h.2

theorem finishRule_spec {S : Type} (env : Env S) (c : RuleCore S)
    (mv : List MatchData) (msgs : List String) (tx : Tx S) :
    (finishRule env c mv msgs tx).2.events = tx.events ++
      (if c.parentId = 0 then
        (if c.log then [Event.matchRule c.id] else []) ++ dfEvents c.id c.actions
       else []) ∧
    (finishRule env c mv msgs tx).2.matchedRules = tx.matchedRules ++
      (if c.parentId = 0 ∧ c.log then [(c.id, msgs, mv)] else []) := by
  unfold finishRule
  by_cases hp : c.parentId = 0
  · by_cases hl : c.log = true
    · simp only [hp, hl, eq_self_iff_true, if_true]
      refine ⟨?_, ?_⟩
      · rw [(runDisruptiveFlow_spec c.id c.actions _).1]
        simp
      · rw [(runDisruptiveFlow_spec c.id c.actions _).2]
        simp
    · have hl2 : c.log = false := by simpa using hl
      simp only [hp, hl2, eq_self_iff_true, if_true, Bool.false_eq_true, if_false]
      refine ⟨?_, ?_⟩
      · rw [(runDisruptiveFlow_spec c.id c.actions _).1]
        simp
      · rw [(runDisruptiveFlow_spec c.id c.actions _).2]
        simp
  · simp [hp]

theorem ndEvents_mem {S : Type} (rid : Int) (acts : List (ActionT S)) (e : Event)
    (h : e ∈ ndEvents rid acts) :
    ∃ aid, e = Event.execAction rid aid ACTION_TYPE_NONDISRUPTIVE := by
  simp only [ndEvents, List.mem_map, List.mem_filter, decide_eq_true_eq] at h
  obtain ⟨a, ⟨_, ha⟩, rfl⟩ := h
  exact ⟨a.aid, by rw [ha]⟩

theorem dfEvents_mem {S : Type} (rid : Int) (acts : List (ActionT S)) (e : Event)
    (h : e ∈ dfEvents rid acts) :
    ∃ aid t, (t = ACTION_TYPE_DISRUPTIVE ∨ t = ACTION_TYPE_FLOW) ∧
      e = Event.execAction rid aid t := by
  simp only [dfEvents, List.mem_map, List.mem_filter, decide_eq_true_eq] at h
  obtain ⟨a, ⟨_, ha⟩, rfl⟩ := h
  exact ⟨a.aid, a.atype, ha, rfl⟩

theorem tagOk_mono (x : Int) (ids : List Int) (e : Event)
    (h : tagOk ids e = true) : tagOk (x :: ids) e = true := by
  cases e <;> simp_all [tagOk]

theorem okChainEvent_mono (x : Int) (ids : List Int) (e : Event)
    (h : okChainEvent ids e = true) : okChainEvent (x :: ids) e = true := by
  cases e <;> simp_all [okChainEvent]

theorem all_tagOk_mono (x : Int) (ids : List Int) (l : List Event)
    (h : l.all (tagOk ids) = true) : l.all (tagOk (x :: ids)) = true := by
  rw [List.all_eq_true] at *
  exact fun e he => tagOk_mono x ids e (h e he)

theorem all_okChainEvent_mono (x : Int) (ids : List Int) (l : List Event)
    (h : l.all (okChainEvent ids) = true) : l.all (okChainEvent (x :: ids)) = true := by
  rw [List.all_eq_true] at *
  exact fun e he => okChainEvent_mono x ids e (h e he)

theorem ndEvents_all_tagOk {S : Type} (ids : List Int) (rid : Int)
    (acts : List (ActionT S)) (h : rid ∈ ids) :
    (ndEvents rid acts).all (tagOk ids) = true := by
  rw [List.all_eq_true]
  intro e he
  obtain ⟨aid, rfl⟩ := ndEvents_mem rid acts e he
  simp [tagOk, h]

theorem ndEvents_all_okChainEvent {S : Type} (ids : List Int) (rid : Int)
    (acts : List (ActionT S)) (h : rid ∈ ids) :
    (ndEvents rid acts).all (okChainEvent ids) = true := by
  rw [List.all_eq_true]
  intro e he
  obtain ⟨aid, rfl⟩ := ndEvents_mem rid acts e he
  simp [okChainEvent, h]

theorem dfEvents_all_tagOk {S : Type} (ids : List Int) (rid : Int)
    (acts : List (ActionT S)) (h : rid ∈ ids) :
    (dfEvents rid acts).all (tagOk ids) = true := by
  rw [List.all_eq_true]
  intro e he
  obtain ⟨aid, t, _, rfl⟩ := dfEvents_mem rid acts e he
  simp [tagOk, h]

mutual

theorem evalRule_trace {S : Type} (env : Env S) (r : Rule S) (tx : Tx S) :
    ∃ added, (evalRule env r tx).2.events = tx.events ++ added ∧
      added.all (tagOk (chainIds (some r))) = true ∧
      (chainAllNonRoot (some r) = true →
        added.all (okChainEvent (chainIds (some r))) = true ∧
        (evalRule env r tx).2.matchedRules = tx.matchedRules) := by
  cases r with
  | mk c chain =>
    have hids : ∀ ch : Option (Rule S),
        chainIds (some (Rule.mk c ch)) = c.id :: chainIds ch := fun ch => by
      simp [chainIds]
    have hmemid : ∀ ch : Option (Rule S), c.id ∈ chainIds (some (Rule.mk c ch)) :=
      fun ch => by rw [hids ch]; exact List.mem_cons_self _ _
    have hnrsplit : ∀ ch : Option (Rule S),
        chainAllNonRoot (some (Rule.mk c ch)) = true →
        ¬c.parentId = 0 ∧ chainAllNonRoot ch = true := fun ch hnr => by
      simp only [chainAllNonRoot, Bool.and_eq_true, bne_iff_ne] at hnr
      exact ⟨hnr.1, hnr.2⟩
    rw [evalRule]
    by_cases hskip : (env.ruleRemoveById tx.store).contains c.id
    · simp only [hskip, eq_self_iff_true, if_true]
      exact ⟨[], by simp, by simp, fun _ => ⟨by simp, by trivial⟩⟩
    · have hskipf : (env.ruleRemoveById tx.store).contains c.id = false := by
        simpa using hskip
      simp only [hskipf, Bool.false_eq_true, if_false]
      by_cases hmv : (varMatches env c tx.store).isEmpty
      · simp only [hmv, eq_self_iff_true, if_true]
        exact ⟨[], by simp, by simp, fun _ => ⟨by simp, by trivial⟩⟩
      · have hmvf : (varMatches env c tx.store).isEmpty = false := by
          simpa using hmv
        simp only [hmvf, Bool.false_eq_true, if_false]
        have hpre := preludeTx_spec env c (varMatches env c tx.store) tx
        cases chain with
        | none =>
          have hfin := finishRule_spec env c (varMatches env c tx.store)
            [env.expandText (preludeTx env c (varMatches env c tx.store) tx).store c.msg]
            (preludeTx env c (varMatches env c tx.store) tx)
          refine ⟨(Event.matchVars :: ndEvents c.id c.actions) ++
            (if c.parentId = 0 then
              (if c.log then [Event.matchRule c.id] else []) ++ dfEvents c.id c.actions
             else []), ?_, ?_, ?_⟩
          · rw [hfin.1, hpre.1]
            simp [List.append_assoc]
          · simp only [List.all_append, List.all_cons, Bool.and_eq_true]
            refine ⟨⟨by simp [tagOk], ndEvents_all_tagOk _ _ _ (hmemid none)⟩, ?_⟩
            by_cases hp : c.parentId = 0
            · simp only [hp, eq_self_iff_true, if_true, List.all_append, Bool.and_eq_true]
              refine ⟨?_, dfEvents_all_tagOk _ _ _ (hmemid none)⟩
              by_cases hl : c.log = true <;> simp [hl, tagOk, hmemid none]
            · simp [hp]
          · intro hnr
            have hp := (hnrsplit none hnr).1
            constructor
            · simp only [hp, if_false, List.append_nil, List.all_cons, Bool.and_eq_true]
              exact ⟨by simp [okChainEvent],
                ndEvents_all_okChainEvent _ _ _ (hmemid none)⟩
            · rw [hfin.2, hpre.2]
              simp [hp]
        | some nr =>
          obtain ⟨ra, hra1, hra2, hra3⟩ :=
            evalChainRest_trace env (some nr)
              (preludeTx env c (varMatches env c tx.store) tx)
          rcases hev : evalChainRest env (some nr)
              (preludeTx env c (varMatches env c tx.store) tx) with ⟨o, tx4⟩
          rw [hev] at hra1 hra3
          have hra2c : ra.all (tagOk (chainIds (some (Rule.mk c (some nr))))) = true := by
            rw [hids (some nr)]
            exact all_tagOk_mono _ _ _ hra2
          cases o with
          | none =>
            refine ⟨(Event.matchVars :: ndEvents c.id c.actions) ++ ra, ?_, ?_, ?_⟩
            · simp only [hev]
              rw [hra1, hpre.1]
              simp [List.append_assoc]
            · simp only [List.all_append, List.all_cons, Bool.and_eq_true]
              exact ⟨⟨by simp [tagOk], ndEvents_all_tagOk _ _ _ (hmemid (some nr))⟩, hra2c⟩
            · intro hnr
              obtain ⟨hp, hnrch⟩ := hnrsplit (some nr) hnr
              constructor
              · simp only [List.all_append, List.all_cons, Bool.and_eq_true]
                refine ⟨⟨by simp [okChainEvent],
                  ndEvents_all_okChainEvent _ _ _ (hmemid (some nr))⟩, ?_⟩
                rw [hids (some nr)]
                exact all_okChainEvent_mono _ _ _ (hra3 hnrch).1
              · simp only [hev]
                rw [(hra3 hnrch).2, hpre.2]
          | some p =>
            rcases p with ⟨cm, cmsgs⟩
            have hfin := finishRule_spec env c
              (varMatches env c tx.store ++ cm)
              ([env.expandText (preludeTx env c (varMatches env c tx.store) tx).store c.msg]
                ++ cmsgs) tx4
            refine ⟨(Event.matchVars :: ndEvents c.id c.actions) ++ ra ++
              (if c.parentId = 0 then
                (if c.log then [Event.matchRule c.id] else []) ++ dfEvents c.id c.actions
               else []), ?_, ?_, ?_⟩
            · simp only [hev]
              rw [hfin.1, hra1, hpre.1]
              simp [List.append_assoc]
            · simp only [List.all_append, List.all_cons, Bool.and_eq_true]
              refine ⟨⟨⟨by simp [tagOk], ndEvents_all_tagOk _ _ _ (hmemid (some nr))⟩,
                hra2c⟩, ?_⟩
              by_cases hp : c.parentId = 0
              · simp only [hp, eq_self_iff_true, if_true, List.all_append, Bool.and_eq_true]
                refine ⟨?_, dfEvents_all_tagOk _ _ _ (hmemid (some nr))⟩
                by_cases hl : c.log = true <;> simp [hl, tagOk, hmemid (some nr)]
              · simp [hp]
            · intro hnr
              obtain ⟨hp, hnrch⟩ := hnrsplit (some nr) hnr
              constructor
              · simp only [hp, if_false, List.append_nil, List.all_append,
                  List.all_cons, Bool.and_eq_true]
                refine ⟨⟨by simp [okChainEvent],
                  ndEvents_all_okChainEvent _ _ _ (hmemid (some nr))⟩, ?_⟩
                rw [hids (some nr)]
                exact all_okChainEvent_mono _ _ _ (hra3 hnrch).1
              · simp only [hev]
                rw [hfin.2, (hra3 hnrch).2, hpre.2]
                simp [hp]
termination_by sizeOf r

theorem evalChainRest_trace {S : Type} (env : Env S) (c : Option (Rule S)) (tx : Tx S) :
    ∃ added, (evalChainRest env c tx).2.events = tx.events ++ added ∧
      added.all (tagOk (chainIds c)) = true ∧
      (chainAllNonRoot c = true →
        added.all (okChainEvent (chainIds c)) = true ∧
        (evalChainRest env c tx).2.matchedRules = tx.matchedRules) := by
  match c with
  | none =>
    rw [evalChainRest]
    exact ⟨[], by simp, by simp, fun _ => ⟨by simp, rfl⟩⟩
  | some (.mk c2 ch2) =>
    rw [evalChainRest]
    obtain ⟨ra, hra1, hra2, hra3⟩ := evalRule_trace env (.mk c2 ch2) tx
    rcases hev : evalRule env (.mk c2 ch2) tx with ⟨m, tx1⟩
    rw [hev] at hra1 hra3
    have hids : chainIds (some (Rule.mk c2 ch2)) = c2.id :: chainIds ch2 := by
      simp [chainIds]
    have hnrsplit : chainAllNonRoot (some (Rule.mk c2 ch2)) = true →
        chainAllNonRoot (some (Rule.mk c2 ch2)) = true ∧ chainAllNonRoot ch2 = true := by
      intro hnr
      have h2 := hnr
      simp only [chainAllNonRoot, Bool.and_eq_true, bne_iff_ne] at h2
      exact ⟨hnr, h2.2⟩
    by_cases hm : m.isEmpty
    · simp only [hev, hm, eq_self_iff_true, if_true]
      exact ⟨ra, hra1, hra2, fun hnr => ⟨(hra3 hnr).1, (hra3 hnr).2⟩⟩
    · have hmf : m.isEmpty = false := by simpa using hm
      obtain ⟨rb, hrb1, hrb2, hrb3⟩ := evalChainRest_trace env ch2 tx1
      rcases hrest : evalChainRest env ch2 tx1 with ⟨o2, tx2⟩
      rw [hrest] at hrb1 hrb3
      cases o2 with
      | none =>
        simp only [hev, hmf, Bool.false_eq_true, if_false, hrest]
        refine ⟨ra ++ rb, ?_, ?_, ?_⟩
        · rw [hrb1, hra1]
          simp [List.append_assoc]
        · simp only [List.all_append, Bool.and_eq_true]
          refine ⟨hra2, ?_⟩
          rw [hids]
          exact all_tagOk_mono _ _ _ hrb2
        · intro hnr
          obtain ⟨hnra, hnrb⟩ := hnrsplit hnr
          constructor
          · simp only [List.all_append, Bool.and_eq_true]
            refine ⟨(hra3 hnra).1, ?_⟩
            rw [hids]
            exact all_okChainEvent_mono _ _ _ (hrb3 hnrb).1
          · rw [(hrb3 hnrb).2, (hra3 hnra).2]
      | some q =>
        rcases q with ⟨ms, msgs2⟩
        simp only [hev, hmf, Bool.false_eq_true, if_false, hrest]
        refine ⟨ra ++ rb, ?_, ?_, ?_⟩
        · rw [hrb1, hra1]
          simp [List.append_assoc]
        · simp only [List.all_append, Bool.and_eq_true]
          refine ⟨hra2, ?_⟩
          rw [hids]
          exact all_tagOk_mono _ _ _ hrb2
        · intro hnr
          obtain ⟨hnra, hnrb⟩ := hnrsplit hnr
          constructor
          · simp only [List.all_append, Bool.and_eq_true]
            refine ⟨(hra3 hnra).1, ?_⟩
            rw [hids]
            exact all_okChainEvent_mono _ _ _ (hrb3 hnrb).1
          · rw [(hrb3 hnrb).2, (hra3 hnra).2]
termination_by sizeOf c

end

theorem ndEvents_filter_df {S : Type} (rid : Int) (acts : List (ActionT S)) :
    (ndEvents rid acts).filter isDisruptiveFlowEvent = [] := by
  rw [List.filter_eq_nil_iff]
  intro e he
  obtain ⟨aid, rfl⟩ := ndEvents_mem rid acts e he
  simp [isDisruptiveFlowEvent, ACTION_TYPE_NONDISRUPTIVE, ACTION_TYPE_DISRUPTIVE,
    ACTION_TYPE_FLOW]

theorem okChainEvent_filter_df (ids : List Int) (l : List Event)
    (h : l.all (okChainEvent ids) = true) :
    l.filter isDisruptiveFlowEvent = [] := by
  rw [List.filter_eq_nil_iff]
  intro e he
  have he2 := List.all_eq_true.mp h e he
  cases e with
  | matchVars => simp [isDisruptiveFlowEvent]
  | matchRule rid => simp [okChainEvent] at he2
  | execAction rid aid t =>
    simp only [okChainEvent, Bool.and_eq_true, beq_iff_eq] at he2
    simp [isDisruptiveFlowEvent, he2.2, ACTION_TYPE_NONDISRUPTIVE,
      ACTION_TYPE_DISRUPTIVE, ACTION_TYPE_FLOW]

/-- Claim C2: if the chain walk of a rule fails (some link returned an
empty list), then Rule.Evaluate of the head returns the empty list, no
disruptive or flow action is executed anywhere during the evaluation,
and tx.matched_rules is unchanged (chained children are assumed
non-root, per the spec invariant on parent_id). -/
theorem c2_chain_failure {S : Type} (env : Env S) (r : Rule S) (tx : Tx S)
    (hnr : chainAllNonRoot r.chain = true)
    (hfail : chainMatched env r tx = false) :
    (evalRule env r tx).1 = [] ∧
    (evalRule env r tx).2.matchedRules = tx.matchedRules ∧
    (evalRule env r tx).2.events.filter isDisruptiveFlowEvent =
      tx.events.filter isDisruptiveFlowEvent := by
  cases r with
  | mk c chain =>
    simp only [Rule.chain] at hnr
    rw [evalRule]
    by_cases hskip : (env.ruleRemoveById tx.store).contains c.id
    · simp only [hskip, eq_self_iff_true, if_true]
      exact ⟨by trivial, by trivial, by trivial⟩
    · have hskipf : (env.ruleRemoveById tx.store).contains c.id = false := by
        simpa using hskip
      simp only [hskipf, Bool.false_eq_true, if_false]
      by_cases hmv : (varMatches env c tx.store).isEmpty
      · simp only [hmv, eq_self_iff_true, if_true]
        exact ⟨by trivial, by trivial, by trivial⟩
      · have hmvf : (varMatches env c tx.store).isEmpty = false := by
          simpa using hmv
        simp only [hmvf, Bool.false_eq_true, if_false]
        cases chain with
        | none =>
          exfalso
          rw [chainMatched] at hfail
          simp [evalChainRest] at hfail
        | some nr =>
          rcases hev : evalChainRest env (some nr)
              (preludeTx env c (varMatches env c tx.store) tx) with ⟨o, tx4⟩
          cases o with
          | some p =>
            exfalso
            rw [chainMatched, hev] at hfail
            simp at hfail
          | none =>
            obtain ⟨ra, hra1, hra2, hra3⟩ := evalChainRest_trace env (some nr)
              (preludeTx env c (varMatches env c tx.store) tx)
            rw [hev] at hra1 hra3
            have hpre := preludeTx_spec env c (varMatches env c tx.store) tx
            simp only [hev]
            refine ⟨by trivial, ?_, ?_⟩
            · rw [(hra3 hnr).2, hpre.2]
            · have h1 : ((Event.matchVars :: ndEvents c.id c.actions) ++ ra).filter
                  isDisruptiveFlowEvent = [] := by
                rw [List.filter_append, List.filter_cons]
                simp only [isDisruptiveFlowEvent, Bool.false_eq_true, if_false]
                rw [ndEvents_filter_df, okChainEvent_filter_df _ _ (hra3 hnr).1]
                rfl
              rw [hra1, hpre.1, List.append_assoc, List.filter_append, h1]
              simp

/-- Witness for C2: a head with a never-matching chain child returns
empty, appends nothing to matched_rules and executes no
disruptive/flow action. -/
theorem c2_chain_failure_witness :
    (evalRule envU headFail txU).1 = [] ∧
    (evalRule envU headFail txU).2.matchedRules = txU.matchedRules ∧
    (evalRule envU headFail txU).2.events.filter isDisruptiveFlowEvent =
      txU.events.filter isDisruptiveFlowEvent :=
  c2_chain_failure envU headFail txU
    (by simp [chainAllNonRoot, headFail, childFail, Rule.chain])
    (by simp [chainMatched, evalRule, evalChainRest, envU, headFail, childFail, txU,
      varMatches, evalVariable, applyCount, buildExceptions, evalArg, transformedArgs,
      executeTransformations, executeOperator, preludeTx, runNonDisruptive,
      ACTION_TYPE_NONDISRUPTIVE, Rule.core, Rule.chain])

theorem not_nd_of_tagOk (rid : Int) (ids : List Int)
    (hne : ∀ i ∈ ids, ¬i = rid) (e : Event) (h : tagOk ids e = true) :
    isNdActionOf rid e = false := by
  cases e with
  | matchVars => simp [isNdActionOf]
  | matchRule rid2 => simp [isNdActionOf]
  | execAction rid2 aid t =>
    simp only [tagOk, decide_eq_true_eq] at h
    simp [isNdActionOf, hne rid2 h]

theorem finish_all_not_nd {S : Type} (rid : Int) (c : RuleCore S) :
    ((if c.parentId = 0 then
        (if c.log = true then [Event.matchRule c.id] else []) ++ dfEvents c.id c.actions
      else []) : List Event).all (fun e => !isNdActionOf rid e) = true := by
  by_cases hp : c.parentId = 0
  · simp only [hp, eq_self_iff_true, if_true, List.all_append, Bool.and_eq_true]
    constructor
    · by_cases hl : c.log = true <;> simp [hl, isNdActionOf]
    · rw [List.all_eq_true]
      intro e he
      obtain ⟨aid, t, ht, rfl⟩ := dfEvents_mem c.id c.actions e he
      rcases ht with ht | ht <;>
        simp [isNdActionOf, ht, ACTION_TYPE_DISRUPTIVE, ACTION_TYPE_FLOW,
          ACTION_TYPE_NONDISRUPTIVE]
  · simp [hp]

/-- Claim C3: when the variable-matching step of a rule produced at
least one match during evaluation (the rule was not skipped and the
step returned matches), every non-disruptive action of the rule is
invoked exactly once, immediately after tx.MatchVars and before any
chain evaluation or head finalization event; when the step produced no
match (or the rule was skipped) none is invoked. Chain ids are assumed
distinct from the rule id, per the spec uniqueness invariant. -/
theorem c3_nondisruptive_once {S : Type} (env : Env S) (r : Rule S) (tx : Tx S)
    (hids : chainIdsNe r.core.id r.chain = true) :
    ((isSkipped env r tx = false ∧ varMatches env r.core tx.store ≠ []) →
      ∃ rest, (evalRule env r tx).2.events =
          tx.events ++ (Event.matchVars :: (ndEvents r.core.id r.core.actions ++ rest)) ∧
        rest.all (fun e => !isNdActionOf r.core.id e) = true) ∧
    ((isSkipped env r tx = true ∨ varMatches env r.core tx.store = []) →
      (evalRule env r tx).2.events = tx.events) := by
  cases r with
  | mk c chain =>
    simp only [Rule.core, Rule.chain] at hids ⊢
    have hne : ∀ i ∈ chainIds chain, ¬i = c.id := by
      intro i hi
      have := List.all_eq_true.mp hids i hi
      simpa using this
    constructor
    · rintro ⟨hskip, hmv⟩
      simp only [isSkipped, Rule.core] at hskip
      rw [evalRule]
      simp only [hskip, Bool.false_eq_true, if_false]
      have hmvf : (varMatches env c tx.store).isEmpty = false := by
        simpa [List.isEmpty_iff] using hmv
      simp only [hmvf, Bool.false_eq_true, if_false]
      have hpre := preludeTx_spec env c (varMatches env c tx.store) tx
      cases chain with
      | none =>
        have hfin := finishRule_spec env c (varMatches env c tx.store)
          [env.expandText (preludeTx env c (varMatches env c tx.store) tx).store c.msg]
          (preludeTx env c (varMatches env c tx.store) tx)
        refine ⟨(if c.parentId = 0 then
            (if c.log = true then [Event.matchRule c.id] else []) ++ dfEvents c.id c.actions
          else []), ?_, finish_all_not_nd c.id c⟩
        rw [hfin.1, hpre.1]
        simp [List.append_assoc]
      | some nr =>
        obtain ⟨ra, hra1, hra2, hra3⟩ := evalChainRest_trace env (some nr)
          (preludeTx env c (varMatches env c tx.store) tx)
        have hrand : ra.all (fun e => !isNdActionOf c.id e) = true := by
          rw [List.all_eq_true]
          intro e he
          have ht := List.all_eq_true.mp hra2 e he
          simp [not_nd_of_tagOk c.id (chainIds (some nr)) hne e ht]
        rcases hev : evalChainRest env (some nr)
            (preludeTx env c (varMatches env c tx.store) tx) with ⟨o, tx4⟩
        rw [hev] at hra1 hra3
        cases o with
        | none =>
          refine ⟨ra, ?_, hrand⟩
          simp only [hev]
          rw [hra1, hpre.1]
          simp [List.append_assoc]
        | some p =>
          rcases p with ⟨cm, cmsgs⟩
          have hfin := finishRule_spec env c
            (varMatches env c tx.store ++ cm)
            ([env.expandText (preludeTx env c (varMatches env c tx.store) tx).store c.msg]
              ++ cmsgs) tx4
          refine ⟨ra ++ (if c.parentId = 0 then
              (if c.log = true then [Event.matchRule c.id] else []) ++
                dfEvents c.id c.actions
            else []), ?_, ?_⟩
          · simp only [hev]
            rw [hfin.1, hra1, hpre.1]
            simp [List.append_assoc]
          · simp only [List.all_append, Bool.and_eq_true]
            exact ⟨hrand, finish_all_not_nd c.id c⟩
    · intro hor
      rw [evalRule]
      rcases hor with hskip | hmv
      · simp only [isSkipped, Rule.core] at hskip
        simp only [hskip, eq_self_iff_true, if_true]
      · have hmvt : (varMatches env c tx.store).isEmpty = true := by
          simp [List.isEmpty_iff, hmv]
        by_cases hskip : (env.ruleRemoveById tx.store).contains c.id
        · simp only [hskip, eq_self_iff_true, if_true]
        · have hskipf : (env.ruleRemoveById tx.store).contains c.id = false := by
            simpa using hskip
          simp only [hskipf, Bool.false_eq_true, if_false, hmvt, if_true]

/-- Witness for C3: the head rule of a failing chain still runs its
non-disruptive action exactly once. -/
theorem c3_nondisruptive_once_witness :
    ∃ rest, (evalRule envU headFail txU).2.events =
        txU.events ++ (Event.matchVars ::
          (ndEvents headFail.core.id headFail.core.actions ++ rest)) ∧
      rest.all (fun e => !isNdActionOf headFail.core.id e) = true :=
  (c3_nondisruptive_once envU headFail txU
    (by simp [chainIdsNe, chainIds, headFail, childFail, Rule.chain, Rule.core])).1
    (by
      constructor
      · simp [isSkipped, envU, headFail, txU, Rule.core]
      · simp [varMatches, headFail, envU, txU, evalVariable, applyCount,
          buildExceptions, evalArg, transformedArgs, executeTransformations,
          executeOperator, Rule.core])

/-- Claim C6 (amended in the order of steps): on a successfully matched
chain, only the head rule (parent_id = 0) executes disruptive and flow
actions, in declaration order, as the final segment of the evaluation;
the (rule, messages, matches) entry is appended to tx.matched_rules
(when log is set) before those actions run, not after; a chained child
(parent_id different from 0, per the spec invariant assumed for the
chain) appends nothing and executes no disruptive or flow action. -/
theorem c6_head_only_disruptive {S : Type} (env : Env S) (r : Rule S) (tx : Tx S)
    (hnr : chainAllNonRoot r.chain = true)
    (hskip : isSkipped env r tx = false)
    (hmv : varMatches env r.core tx.store ≠ [])
    (hchain : chainMatched env r tx = true) :
    (r.core.parentId = 0 →
      ∃ mid msgs,
        (evalRule env r tx).2.events =
          tx.events ++ (Event.matchVars :: ndEvents r.core.id r.core.actions) ++ mid
            ++ (if r.core.log then [Event.matchRule r.core.id] else [])
            ++ dfEvents r.core.id r.core.actions ∧
        mid.all (okChainEvent (chainIds r.chain)) = true ∧
        (evalRule env r tx).2.matchedRules =
          tx.matchedRules ++
            (if r.core.log then [(r.core.id, msgs, (evalRule env r tx).1)] else [])) ∧
    (r.core.parentId ≠ 0 →
      (evalRule env r tx).2.events.filter isDisruptiveFlowEvent =
        tx.events.filter isDisruptiveFlowEvent ∧
      (evalRule env r tx).2.matchedRules = tx.matchedRules) := by
  cases r with
  | mk c chain =>
    simp only [Rule.core, Rule.chain] at hnr hmv ⊢
    simp only [isSkipped, Rule.core] at hskip
    rw [evalRule]
    simp only [hskip, Bool.false_eq_true, if_false]
    have hmvf : (varMatches env c tx.store).isEmpty = false := by
      simpa [List.isEmpty_iff] using hmv
    simp only [hmvf, Bool.false_eq_true, if_false]
    have hpre := preludeTx_spec env c (varMatches env c tx.store) tx
    cases chain with
    | none =>
      have hfin := finishRule_spec env c (varMatches env c tx.store)
        [env.expandText (preludeTx env c (varMatches env c tx.store) tx).store c.msg]
        (preludeTx env c (varMatches env c tx.store) tx)
      constructor
      · intro hp
        refine ⟨[], [env.expandText
            (preludeTx env c (varMatches env c tx.store) tx).store c.msg], ?_, by simp, ?_⟩
        · rw [hfin.1, hpre.1]
          simp [hp, List.append_assoc]
        · rw [hfin.2, hpre.2, finishRule_fst]
          by_cases hl : c.log = true <;> simp [hp, hl]
      · intro hp
        constructor
        · rw [hfin.1, hpre.1]
          simp only [hp, if_false, List.append_nil, List.append_assoc, List.filter_append,
            List.filter_cons]
          rw [ndEvents_filter_df]
          simp [isDisruptiveFlowEvent]
        · rw [hfin.2, hpre.2]
          simp [hp]
    | some nr =>
      obtain ⟨ra, hra1, hra2, hra3⟩ := evalChainRest_trace env (some nr)
        (preludeTx env c (varMatches env c tx.store) tx)
      rcases hev : evalChainRest env (some nr)
          (preludeTx env c (varMatches env c tx.store) tx) with ⟨o, tx4⟩
      rw [hev] at hra1 hra3
      cases o with
      | none =>
        exfalso
        rw [chainMatched, hev] at hchain
        simp at hchain
      | some p =>
        rcases p with ⟨cm, cmsgs⟩
        have hfin := finishRule_spec env c
          (varMatches env c tx.store ++ cm)
          ([env.expandText (preludeTx env c (varMatches env c tx.store) tx).store c.msg]
            ++ cmsgs) tx4
        constructor
        · intro hp
          refine ⟨ra, [env.expandText
              (preludeTx env c (varMatches env c tx.store) tx).store c.msg] ++ cmsgs,
            ?_, (hra3 hnr).1, ?_⟩
          · simp only [hev]
            rw [hfin.1, hra1, hpre.1]
            simp [hp, List.append_assoc]
          · simp only [hev]
            rw [hfin.2, (hra3 hnr).2, hpre.2, finishRule_fst]
            by_cases hl : c.log = true <;> simp [hp, hl]
        · intro hp
          constructor
          · simp only [hev]
            rw [hfin.1, hra1, hpre.1]
            simp only [hp, if_false, List.append_nil, List.append_assoc,
              List.filter_append, List.filter_cons]
            rw [ndEvents_filter_df, okChainEvent_filter_df _ _ (hra3 hnr).1]
            simp [isDisruptiveFlowEvent]
          · simp only [hev]
            rw [hfin.2, (hra3 hnr).2, hpre.2]
            simp [hp]

/-- Counterexample to C6 as stated: on a successfully matched chain,
the code appends the (rule, messages, matches) record to
tx.matched_rules before executing the disruptive action, not after: in
the concrete trace the tx.MatchRule event precedes the disruptive
execAction event. -/
theorem c6_counterexample :
    (evalRule envU headOk txU).2.events =
      [Event.matchVars, Event.execAction 1 0 4, Event.matchVars,
       Event.execAction 2 5 4, Event.matchRule 1, Event.execAction 1 1 2] ∧
    [Event.matchVars, Event.execAction 1 0 4, Event.matchVars,
     Event.execAction 2 5 4, Event.matchRule 1, Event.execAction 1 1 2].indexOf
        (Event.matchRule 1) <
      [Event.matchVars, Event.execAction 1 0 4, Event.matchVars,
       Event.execAction 2 5 4, Event.matchRule 1, Event.execAction 1 1 2].indexOf
        (Event.execAction 1 1 2) := by
  constructor
  · simp [evalRule, evalChainRest, envU, headOk, childOk, txU, varMatches,
      evalVariable, applyCount, buildExceptions, evalArg, transformedArgs,
      executeTransformations, executeOperator, preludeTx, runNonDisruptive,
      finishRule, runDisruptiveFlow, ACTION_TYPE_NONDISRUPTIVE,
      ACTION_TYPE_DISRUPTIVE, ACTION_TYPE_FLOW, Rule.core, Rule.chain]
  · decide

/-- Witness for C6 at a concrete successfully matched chain. -/
theorem c6_head_only_disruptive_witness :
    ∃ mid msgs,
      (evalRule envU headOk txU).2.events =
        txU.events ++ (Event.matchVars ::
          ndEvents headOk.core.id headOk.core.actions) ++ mid
          ++ (if headOk.core.log then [Event.matchRule headOk.core.id] else [])
          ++ dfEvents headOk.core.id headOk.core.actions ∧
      mid.all (okChainEvent (chainIds headOk.chain)) = true ∧
      (evalRule envU headOk txU).2.matchedRules =
        txU.matchedRules ++
          (if headOk.core.log then
            [(headOk.core.id, msgs, (evalRule envU headOk txU).1)] else []) :=
  (c6_head_only_disruptive envU headOk txU
    (by simp [chainAllNonRoot, headOk, childOk, Rule.chain])
    (by simp [isSkipped, envU, headOk, txU, Rule.core])
    (by simp [varMatches, headOk, envU, txU, evalVariable, applyCount,
      buildExceptions, evalArg, transformedArgs, executeTransformations,
      executeOperator, Rule.core])
    (by simp [chainMatched, evalRule, evalChainRest, envU, headOk, childOk, txU,
      varMatches, evalVariable, applyCount, buildExceptions, evalArg,
      transformedArgs, executeTransformations, executeOperator, preludeTx,
      runNonDisruptive, finishRule, runDisruptiveFlow, ACTION_TYPE_NONDISRUPTIVE,
      ACTION_TYPE_DISRUPTIVE, ACTION_TYPE_FLOW, Rule.core, Rule.chain])).1
    (by simp [headOk, Rule.core])

theorem goAppend_preserves (hh : SliceHeap) (a : Nat) (x : String) (i : Nat)
    (hi : i < hh.cells.length) :
    heapRead (goAppend hh a x).1 i = heapRead hh i := by
  simp [goAppend, heapAlloc, heapRead, List.getD_eq_getElem?_getD,
    List.getElem?_append, hi]

theorem goAppend_read (hh : SliceHeap) (a : Nat) (x : String) :
    heapRead (goAppend hh a x).1 (goAppend hh a x).2 = heapRead hh a ++ [x] ∧
    (goAppend hh a x).2 < (goAppend hh a x).1.cells.length := by
  constructor
  · simp [goAppend, heapAlloc, heapRead, List.getD_eq_getElem?_getD,
      List.getElem?_append]
  · simp [goAppend, heapAlloc]

theorem foldl_exceptions_spec (vcol : String) (ecol : List (String × String)) :
    ∀ (hh : SliceHeap) (aa : Nat), aa < hh.cells.length →
    (∀ i, i < hh.cells.length →
      heapRead (ecol.foldl
        (fun p c => if c.1 = vcol then goAppend p.1 p.2 c.2 else p) (hh, aa)).1 i
        = heapRead hh i) ∧
    heapRead (ecol.foldl
        (fun p c => if c.1 = vcol then goAppend p.1 p.2 c.2 else p) (hh, aa)).1
      (ecol.foldl
        (fun p c => if c.1 = vcol then goAppend p.1 p.2 c.2 else p) (hh, aa)).2
      = heapRead hh aa ++ (ecol.filter (fun c => c.1 = vcol)).map (fun c => c.2) ∧
    (ecol.foldl
        (fun p c => if c.1 = vcol then goAppend p.1 p.2 c.2 else p) (hh, aa)).2 <
      (ecol.foldl
        (fun p c => if c.1 = vcol then goAppend p.1 p.2 c.2 else p) (hh, aa)).1.cells.length := by
  induction ecol with
  | nil =>
    intro hh aa haa
    exact ⟨fun i _ => rfl, by simp, haa⟩
  | cons c cs ih =>
    intro hh aa haa
    by_cases hc : c.1 = vcol
    · have hread := goAppend_read hh aa c.2
      have hstep := ih (goAppend hh aa c.2).1 (goAppend hh aa c.2).2 hread.2
      have hlen : hh.cells.length ≤ (goAppend hh aa c.2).1.cells.length := by
        simp [goAppend, heapAlloc]
      refine ⟨?_, ?_, ?_⟩
      · intro i hi
        rw [List.foldl_cons, if_pos hc]
        rw [hstep.1 i (Nat.lt_of_lt_of_le hi hlen)]
        exact goAppend_preserves hh aa c.2 i hi
      · rw [List.foldl_cons, if_pos hc, List.filter_cons, if_pos (by simpa using hc)]
        rw [hstep.2.1, hread.1]
        simp
      · rw [List.foldl_cons, if_pos hc]
        exact hstep.2.2
    · have hstep := ih hh aa haa
      refine ⟨?_, ?_, ?_⟩
      · intro i hi
        rw [List.foldl_cons, if_neg hc]
        exact hstep.1 i hi
      · rw [List.foldl_cons, if_neg hc, List.filter_cons, if_neg (by simpa using hc)]
        exact hstep.2.1
      · rw [List.foldl_cons, if_neg hc]
        exact hstep.2.2

/-- Claim C7: the exception-merging step of Rule.Evaluate never writes
to the rule's own Exceptions backing array (nor to any other existing
cell): the transaction-level removed targets are merged into a freshly
allocated copy, and the content of that fresh slice is exactly the
buildExceptions list that evalVariable passes to GetField. -/
theorem c7_exceptions_fresh_copy (h : SliceHeap) (vaid : Nat) (vcollection : String)
    (ecol : List (String × String)) (hlt : vaid < h.cells.length) :
    (∀ i, i < h.cells.length →
      heapRead (buildExceptionsHeap h vaid vcollection ecol).1 i = heapRead h i) ∧
    heapRead (buildExceptionsHeap h vaid vcollection ecol).1
        (buildExceptionsHeap h vaid vcollection ecol).2 =
      buildExceptions
        { count := false, collection := vcollection, key := "",
          exceptions := heapRead h vaid } ecol := by
  have halloc : (heapAlloc h (List.replicate (heapRead h vaid).length "")).2
      = h.cells.length := rfl
  have hw : ∀ i, i < h.cells.length →
      heapRead (heapWrite (heapAlloc h (List.replicate (heapRead h vaid).length "")).1
        (heapAlloc h (List.replicate (heapRead h vaid).length "")).2 (heapRead h vaid)) i
      = heapRead h i := by
    intro i hi
    have hne : ¬(heapAlloc h (List.replicate (heapRead h vaid).length "")).2 = i := by
      rw [halloc]
      exact fun hcontra => absurd hi (by rw [← hcontra]; exact Nat.lt_irrefl _)
    simp [heapWrite, heapAlloc, heapRead, List.getD_eq_getElem?_getD,
      List.getElem?_set_ne hne, List.getElem?_append, hi]
  have hwr : heapRead (heapWrite (heapAlloc h (List.replicate (heapRead h vaid).length "")).1
      (heapAlloc h (List.replicate (heapRead h vaid).length "")).2 (heapRead h vaid))
      (heapAlloc h (List.replicate (heapRead h vaid).length "")).2 = heapRead h vaid := by
    simp [heapWrite, heapAlloc, heapRead, List.getD_eq_getElem?_getD,
      List.getElem?_set_self]
  have hwlen : (heapAlloc h (List.replicate (heapRead h vaid).length "")).2 <
      (heapWrite (heapAlloc h (List.replicate (heapRead h vaid).length "")).1
        (heapAlloc h (List.replicate (heapRead h vaid).length "")).2
        (heapRead h vaid)).cells.length := by
    simp [heapWrite, heapAlloc]
  have hfold := foldl_exceptions_spec vcollection ecol
    (heapWrite (heapAlloc h (List.replicate (heapRead h vaid).length "")).1
      (heapAlloc h (List.replicate (heapRead h vaid).length "")).2 (heapRead h vaid))
    (heapAlloc h (List.replicate (heapRead h vaid).length "")).2 hwlen
  constructor
  · intro i hi
    have hi2 : i < (heapWrite (heapAlloc h (List.replicate (heapRead h vaid).length "")).1
        (heapAlloc h (List.replicate (heapRead h vaid).length "")).2
        (heapRead h vaid)).cells.length := by
      simp only [heapWrite, heapAlloc, List.length_set, List.length_append]
      exact Nat.lt_of_lt_of_le hi (Nat.le_add_right _ _)
    rw [show (buildExceptionsHeap h vaid vcollection ecol).1 =
      (ecol.foldl (fun p c => if c.1 = vcollection then goAppend p.1 p.2 c.2 else p)
        ((heapWrite (heapAlloc h (List.replicate (heapRead h vaid).length "")).1
          (heapAlloc h (List.replicate (heapRead h vaid).length "")).2 (heapRead h vaid)),
         (heapAlloc h (List.replicate (heapRead h vaid).length "")).2)).1 from rfl]
    rw [hfold.1 i hi2]
    exact hw i hi
  · rw [show (buildExceptionsHeap h vaid vcollection ecol) =
      (ecol.foldl (fun p c => if c.1 = vcollection then goAppend p.1 p.2 c.2 else p)
        ((heapWrite (heapAlloc h (List.replicate (heapRead h vaid).length "")).1
          (heapAlloc h (List.replicate (heapRead h vaid).length "")).2 (heapRead h vaid)),
         (heapAlloc h (List.replicate (heapRead h vaid).length "")).2)) from rfl]
    rw [hfold.2.1, hwr]
    simp [buildExceptions]

/-- Witness for C7 at a concrete heap of one slice. -/
theorem c7_exceptions_fresh_copy_witness :
    (∀ i, i < ({ cells := [["k0"]] } : SliceHeap).cells.length →
      heapRead (buildExceptionsHeap { cells := [["k0"]] } 0 "ARGS"
        [("ARGS", "pw"), ("TX", "z")]).1 i =
      heapRead { cells := [["k0"]] } i) ∧
    heapRead (buildExceptionsHeap { cells := [["k0"]] } 0 "ARGS"
        [("ARGS", "pw"), ("TX", "z")]).1
      (buildExceptionsHeap { cells := [["k0"]] } 0 "ARGS"
        [("ARGS", "pw"), ("TX", "z")]).2 =
      buildExceptions
        { count := false, collection := "ARGS", key := "",
          exceptions := heapRead { cells := [["k0"]] } 0 }
        [("ARGS", "pw"), ("TX", "z")] :=
  c7_exceptions_fresh_copy { cells := [["k0"]] } 0 "ARGS"
    [("ARGS", "pw"), ("TX", "z")] (by decide)

theorem fileLookup_append_self (files : List (String × List Nat × Nat))
    (p : String) (c : List Nat) (m : Nat) (h : fileLookup files p = none) :
    fileLookup (files ++ [(p, c, m)]) p = some (c, m) := by
  have hf : files.find? (fun f => f.1 == p) = none := by
    rcases he : files.find? (fun f => f.1 == p) with _ | f
    · exact he
    · rw [fileLookup, he] at h
      simp at h
  simp [fileLookup, List.find?_append, hf]

/-- Claim C8 (amended): WriteAudit writes the JSON document to the
joined audit path with permission mask 0600 by a direct
create-or-truncate write (not atomically: an interrupted write leaves
the bytes written so far at the final path); on any audit I/O error
(directory creation or JSON write) it returns the failure and the
concise line is not appended, so the audit line exists for a
transaction exactly when the JSON file was successfully and completely
written. Stated for a path with no pre-existing file. -/
theorem c8_write_audit_contract (orc : AuditOracle) (tx : AuditTx) (fs : FS)
    (hfresh : fileLookup fs.files (pathJoin tx.auditDir tx.auditFname) = none) :
    ((writeAudit orc tx fs).2 = true ↔
      (orc.mkdirOk = true ∧ orc.writeOutcome = WriteOutcome.ok)) ∧
    ((writeAudit orc tx fs).1.auditLines =
      fs.auditLines ++ (if (writeAudit orc tx fs).2 = true then [auditLine tx] else [])) ∧
    ((writeAudit orc tx fs).2 = true →
      fileLookup (writeAudit orc tx fs).1.files (pathJoin tx.auditDir tx.auditFname) =
        some (tx.auditJson, 0o600)) ∧
    (orc.mkdirOk = true → ∀ k, orc.writeOutcome = WriteOutcome.failAfter k →
      fileLookup (writeAudit orc tx fs).1.files (pathJoin tx.auditDir tx.auditFname) =
        some (tx.auditJson.take k, 0o600)) ∧
    (orc.mkdirOk = false → (writeAudit orc tx fs).1 = fs) := by
  rcases orc with ⟨mk, wo⟩
  cases mk
  · refine ⟨by simp [writeAudit], by simp [writeAudit], ?_, ?_, fun _ => by simp [writeAudit]⟩
    · intro hcontra
      rw [writeAudit] at hcontra
      simp at hcontra
    · intro hcontra
      simp at hcontra
  · cases wo with
    | ok =>
      refine ⟨by simp [writeAudit, writeFileModel], ?_, ?_, ?_, ?_⟩
      · simp only [writeAudit, writeFileModel]
        simp
      · intro _
        simp only [writeAudit, writeFileModel, setFile, hfresh]
        simpa using fileLookup_append_self fs.files _ tx.auditJson 0o600 hfresh
      · intro _ k hk
        simp at hk
      · intro hcontra
        simp at hcontra
    | failAfter j =>
      refine ⟨by simp [writeAudit, writeFileModel], ?_, ?_, ?_, ?_⟩
      · simp only [writeAudit, writeFileModel]
        simp
      · intro hcontra
        rw [writeAudit] at hcontra
        simp [writeFileModel] at hcontra
      · intro _ k hk
        have hj : j = k := by simpa using hk
        subst hj
        simp only [writeAudit, writeFileModel, setFile, hfresh]
        simpa using fileLookup_append_self fs.files _ (tx.auditJson.take j) 0o600 hfresh
      · intro hcontra
        simp at hcontra

/-- Counterexample to C8 as stated: with a write that fails after one
byte, WriteAudit reports the failure and appends no line, but a partial
JSON file (one byte, neither empty nor the full document) remains at
the final path, so the write is not atomic. -/
theorem c8_counterexample :
    (writeAudit orcFail1 auditTxEx fsEmpty).2 = false ∧
    (writeAudit orcFail1 auditTxEx fsEmpty).1.auditLines = [] ∧
    fileLookup (writeAudit orcFail1 auditTxEx fsEmpty).1.files
        (pathJoin auditTxEx.auditDir auditTxEx.auditFname) = some ([123], 0o600) ∧
    ([123] : List Nat) ≠ auditTxEx.auditJson ∧ ([123] : List Nat) ≠ [] := by
  refine ⟨by decide, by decide, by decide, by decide, by decide⟩

/-- Witness for C8 on the success path: line and complete 0600 file,
both present. -/
theorem c8_write_audit_contract_witness :
    ((writeAudit orcOk auditTxEx fsEmpty).2 = true ↔
      (orcOk.mkdirOk = true ∧ orcOk.writeOutcome = WriteOutcome.ok)) ∧
    ((writeAudit orcOk auditTxEx fsEmpty).1.auditLines =
      fsEmpty.auditLines ++
        (if (writeAudit orcOk auditTxEx fsEmpty).2 = true
         then [auditLine auditTxEx] else [])) :=
  ⟨(c8_write_audit_contract orcOk auditTxEx fsEmpty (by decide)).1,
   (c8_write_audit_contract orcOk auditTxEx fsEmpty (by decide)).2.1⟩

/-- Claim C9, evaluated at the failing input: with the transaction
timestamp 22/Aug/2009 13:24:05 +0100 the audit layout renders the SS
position as 220 - the day of month consumed by the layout token 2
followed by the literal byte 0 - instead of the seconds of minute 05
that the claim (and the spec, which calls the source token 15:04:20 a
typo for 15:04:05) prescribes; the full concise line shows the
rendering in place, including the two literal dash fields after the
server IP. -/
theorem c9_timestamp_code_bug :
    goTimeFormat auditTimeLayout partsEx = "22/Aug/2009:13:24:220 +0100" ∧
    partsEx.second = 5 ∧
    auditLine auditTxEx =
      "192.168.3.130 - - - [22/Aug/2009:13:24:220 +0100] \"GET / HTTP/1.1\" 200 56 \"-\" \"-\" SojdH8AAQEAAAugAQAAAAAA \"-\" /logs/200908/f1 0 1248" := by
  refine ⟨by decide, by decide, by decide⟩

set_option maxRecDepth 100000 in
theorem md5_empty_digest :
    Md5 "" = [212, 29, 140, 217, 143, 0, 178, 4, 233, 128, 9, 152, 236, 248, 66, 126] := by
  decide

/-- Claim C10: the Md5 transformation is a pure function whose result
is the raw 16-byte MD5 digest of the input bytes: its length is always
exactly 16, the digest of the empty string is the RFC 1321 reference
value as raw bytes, and it contains a byte above 127, which no
hex-encoded (ASCII) rendering could contain. -/
theorem c10_md5_raw_digest :
    (∀ s : String, (Md5 s).length = 16) ∧
    Md5 "" = [212, 29, 140, 217, 143, 0, 178, 4, 233, 128, 9, 152, 236, 248, 66, 126] ∧
    (∃ b ∈ Md5 "", 127 < b) := by
  refine ⟨?_, ?_, ?_⟩
  · intro s
    simp [Md5, md5Bytes, le4]
  · exact md5_empty_digest
  · rw [md5_empty_digest]
    exact ⟨212, by simp, by decide⟩
